import Mathlib

/-!
# wellwishers: the deferred task scheduler

A shallow embedding of `src/api/utils/cronScheduler.js`, the bootstrap in
`index.js` and the event handlers of `src/api/controllers/eventController.js`.

* Time values are milliseconds since the epoch, as in a JavaScript `Date`.
  The calendar functions are the abstract operations of ECMA-262 §21.4.1
  (`Day`, `DayFromYear`, `YearFromTime`, `MonthFromTime`, `DateFromTime`, ...).
* `moment.utc`, `.date()`, `.month()`, `.hour()`, `.minute()` and
  `.add(n, "days")` follow moment's UTC mode, which delegates to the
  `getUTC*` / `setUTCDate` methods of `Date`.
* `cron.schedule` follows node-cron: the pattern is validated when the task is
  created (an invalid pattern throws), a valid task is live at once, and it
  runs whenever its pattern matches the wall clock of its time zone.
* JavaScript exceptions are `Except String`; the event collection is a list of
  documents; the set of live cron tasks is a list in registration order.
-/

/-! ## ECMA-262 time values -/

def msPerDay : Int := 86400000

def msPerHour : Int := 3600000

def msPerMinute : Int := 60000

def msPerSecond : Int := 1000

/-- Day number of a time value: `floor(t / msPerDay)`. -/
def Day (t : Int) : Int := t / msPerDay

/-- Milliseconds since the start of the day: `t modulo msPerDay`. -/
def TimeWithinDay (t : Int) : Int := t % msPerDay

def isLeapYear (y : Int) : Bool := y % 4 = 0 && (y % 100 ≠ 0 || y % 400 = 0)

def DaysInYear (y : Int) : Int := if isLeapYear y then 366 else 365

/-- Day number of the first day of year `y`. -/
def DayFromYear (y : Int) : Int :=
  365 * (y - 1970) + (y - 1969) / 4 - (y - 1901) / 100 + (y - 1601) / 400

/-- The year a day number falls in. ECMA-262 defines it as the largest `y`
with `DayFromYear y ≤ day`; here it is computed from an estimate that is off
by at most one (`YearFromDay_spec` and `YearFromDay_unique` show the two
agree). -/
def YearFromDay (day : Int) : Int :=
  let y := 1970 + day * 400 / 146097
  if DayFromYear (y + 1) ≤ day then y + 1
  else if day < DayFromYear y then y - 1
  else y

def YearFromTime (t : Int) : Int := YearFromDay (Day t)

def InLeapYear (t : Int) : Int := if isLeapYear (YearFromTime t) then 1 else 0

def DayWithinYear (t : Int) : Int := Day t - DayFromYear (YearFromTime t)

/-- Month of a time value, 0 (January) to 11 (December). -/
def MonthFromTime (t : Int) : Int :=
  if DayWithinYear t < 31 then 0
  else if DayWithinYear t < 59 + InLeapYear t then 1
  else if DayWithinYear t < 90 + InLeapYear t then 2
  else if DayWithinYear t < 120 + InLeapYear t then 3
  else if DayWithinYear t < 151 + InLeapYear t then 4
  else if DayWithinYear t < 181 + InLeapYear t then 5
  else if DayWithinYear t < 212 + InLeapYear t then 6
  else if DayWithinYear t < 243 + InLeapYear t then 7
  else if DayWithinYear t < 273 + InLeapYear t then 8
  else if DayWithinYear t < 304 + InLeapYear t then 9
  else if DayWithinYear t < 334 + InLeapYear t then 10
  else 11

def HourFromTime (t : Int) : Int := (t / msPerHour) % 24

def MinFromTime (t : Int) : Int := (t / msPerMinute) % 60

def SecFromTime (t : Int) : Int := (t / msPerSecond) % 60

/-- Number of days of year `y` before the first of month `m` (0 to 11). -/
def daysBeforeMonth (y m : Int) : Int :=
  if m ≤ 0 then 0
  else if m ≤ 1 then 31
  else if m ≤ 2 then DaysInYear y - 306
  else if m ≤ 3 then DaysInYear y - 275
  else if m ≤ 4 then DaysInYear y - 245
  else if m ≤ 5 then DaysInYear y - 214
  else if m ≤ 6 then DaysInYear y - 184
  else if m ≤ 7 then DaysInYear y - 153
  else if m ≤ 8 then DaysInYear y - 122
  else if m ≤ 9 then DaysInYear y - 92
  else if m ≤ 10 then DaysInYear y - 61
  else DaysInYear y - 31

/-- Day of the month of a time value, 1 to 31: the day within the year, less
the days of the months before. -/
def DateFromTime (t : Int) : Int :=
  DayWithinYear t - daysBeforeMonth (YearFromTime t) (MonthFromTime t) + 1

/-- Day of the week, 0 (Sunday) to 6 (Saturday). -/
def WeekDay (t : Int) : Int := (Day t + 4) % 7

/-- Length of month `m` (0 to 11) of year `y`. -/
def daysInMonth (y m : Int) : Int :=
  if m = 1 then DaysInYear y - 337
  else if m = 3 ∨ m = 5 ∨ m = 8 ∨ m = 10 then 30
  else 31

/-- The abstract operation `MakeDay(year, month, date)`: the day number of the
first of the month (after carrying `month` into the year), plus `date - 1`. -/
def MakeDay (year month date : Int) : Int :=
  let ym := year + month / 12
  let mn := month % 12
  DayFromYear ym + daysBeforeMonth ym mn + date - 1

def MakeDate (day time : Int) : Int := day * msPerDay + time

/-- The abstract operation `TimeClip`: a `Date` holds a time value only within
8.64e15 ms of the epoch, anything else is an Invalid Date. -/
def TimeClip (t : Int) : Option Int :=
  if -8640000000000000 ≤ t ∧ t ≤ 8640000000000000 then some t else none

/-! ## JavaScript values -/

/-- A JavaScript number as the scheduler meets it: the calendar getters of an
invalid moment return `NaN`. -/
inductive JsNum where
  | nan
  | num (v : Int)
deriving DecidableEq, Repr

/-- The `+` of a number and an integer literal (`NaN + 1` is `NaN`). -/
def JsNum.add : JsNum → Int → JsNum
  | .nan, _ => .nan
  | .num v, k => .num (v + k)

/-- String conversion inside a template literal. -/
def JsNum.toString : JsNum → String
  | .nan => "NaN"
  | .num v => ToString.toString v

/-- What a date field of a document or of a request body can hold, as
`moment.utc` sees it. `invalid` stands for every value moment cannot parse
(an Invalid Date, an unparseable string). -/
inductive DateValue where
  | undefined
  | null
  | invalid
  | time (t : Int)
deriving DecidableEq, Repr

/-! ## moment (UTC mode) -/

inductive Moment where
  | invalid
  | valid (t : Int)
deriving DecidableEq, Repr

/-- The call `moment.utc(input)`. An `undefined` input is the current time
`now`; `null` and unparseable inputs give an invalid moment. -/
def moment.utc (now : Int) : DateValue → Moment
  | .undefined => .valid now
  | .null => .invalid
  | .invalid => .invalid
  | .time t => .valid t

def Moment.date : Moment → JsNum
  | .invalid => .nan
  | .valid t => .num (DateFromTime t)

def Moment.month : Moment → JsNum
  | .invalid => .nan
  | .valid t => .num (MonthFromTime t)

def Moment.hour : Moment → JsNum
  | .invalid => .nan
  | .valid t => .num (HourFromTime t)

def Moment.minute : Moment → JsNum
  | .invalid => .nan
  | .valid t => .num (MinFromTime t)

/-- The call `m.add(n, "days")` in UTC mode: moment calls
`setUTCDate(getUTCDate() + n)`, which rebuilds the time value from the
calendar fields and keeps the time within the day. -/
def Moment.addDays : Moment → Int → Moment
  | .invalid, _ => .invalid
  | .valid t, n =>
    match TimeClip (MakeDate (MakeDay (YearFromTime t) (MonthFromTime t) (DateFromTime t + n))
        (TimeWithinDay t)) with
    | some v => .valid v
    | none => .invalid

/-- The call `m.toDate()`. -/
def Moment.toDate : Moment → DateValue
  | .invalid => .invalid
  | .valid t => .time t

/-! ## node-cron -/

/-- One field of a cron pattern. Of node-cron's field grammar the scheduler
only ever writes `*` and plain decimal numbers, and only these are modelled;
any other text is taken as invalid. -/
inductive CronField where
  | any
  | exact (n : Int)
deriving DecidableEq, Repr

structure CronRule where
  second : CronField
  minute : CronField
  hour : CronField
  dayOfMonth : CronField
  month : CronField
  dayOfWeek : CronField
deriving DecidableEq, Repr

/-- The pieces of `pattern.split(" ")`. -/
def splitOnSpace : List Char → List (List Char)
  | [] => [[]]
  | c :: cs =>
    match splitOnSpace cs with
    | [] => [[c]]
    | w :: ws => if c = ' ' then [] :: w :: ws else (c :: w) :: ws

def digitValue (c : Char) : Option Nat :=
  if '0' ≤ c ∧ c ≤ '9' then some (c.toNat - '0'.toNat) else none

/-- Value of a non-empty run of decimal digits (the `\d+` of node-cron's
validation), `none` for anything else. -/
def parseDigits : List Char → Option Nat → Option Nat
  | [], acc => acc
  | c :: cs, acc =>
    match digitValue c with
    | none => none
    | some v => parseDigits cs (some (10 * acc.getD 0 + v))

/-- Validation of one field against its range `lo..hi`. -/
def parseField (lo hi : Nat) (f : List Char) : Option CronField :=
  if f = ['*'] then some .any
  else match parseDigits f none with
    | some n => if lo ≤ n ∧ n ≤ hi then some (.exact n) else none
    | none => none

/-- Pattern validation of node-cron: five fields get the seconds field `0` in
front; seconds and minutes are 0..59, hours 0..23, days of the month 1..31,
months 1..12 and days of the week 0..7. -/
def parsePattern (expression : String) : Option CronRule :=
  let fields := splitOnSpace expression.data
  let fields := if fields.length = 5 then ['0'] :: fields else fields
  match fields with
  | [s, mi, h, d, mo, w] =>
    match parseField 0 59 s, parseField 0 59 mi, parseField 0 23 h, parseField 1 31 d,
      parseField 1 12 mo, parseField 0 7 w with
    | some s, some mi, some h, some d, some mo, some w => some ⟨s, mi, h, d, mo, w⟩
    | _, _, _, _, _, _ => none
  | _ => none

/-- What a task does when it fires: the two callbacks of `cronScheduler.js`,
each closed over the `_id` of its event. -/
inductive TaskAction where
  | sendEmailForEvent (id : Nat)
  | findByIdAndDelete (id : Nat)
deriving DecidableEq, Repr

structure ScheduledTask where
  expression : String
  rule : CronRule
  timezone : String
  action : TaskAction
deriving DecidableEq, Repr

/-- The live tasks of the process, in registration order. Nothing in the
sources stops or removes a task. -/
structure Cron where
  tasks : List ScheduledTask
deriving DecidableEq, Repr

/-- The call `cron.schedule(expression, func, { timezone })`: throws when the
pattern is invalid, otherwise creates the task, starts it and returns it. -/
def cron.schedule (expression : String) (func : TaskAction) (timezone : String) (c : Cron) :
    Except String ScheduledTask × Cron :=
  match parsePattern expression with
  | none => (.error (expression ++ " is a invalid expression"), c)
  | some rule =>
    let task : ScheduledTask := ⟨expression, rule, timezone, func⟩
    (.ok task, ⟨c.tasks ++ [task]⟩)

/-- Offset of local time from UTC in milliseconds, at the instants at which a
task fires. Nepal time has been UTC+05:45 throughout the year since 1986 (see
`kathmanduOffsetAt` for the offset at an earlier instant). -/
def utcOffset (timezone : String) : Option Int :=
  if timezone = "Asia/Kathmandu" then some 20700000
  else if timezone = "UTC" then some 0
  else none

/-- Offset of Nepal time (Asia/Kathmandu) from UTC at the instant `t`, in
milliseconds, after the tz database: local mean time +05:41:16 until
1919-12-31T18:18:44Z, +05:30 until 1985-12-31T18:30:00Z, +05:45 since. -/
def kathmanduOffsetAt (t : Int) : Int :=
  if 504901800000 ≤ t then 20700000
  else if -1577943676000 ≤ t then 19800000
  else 20476000

def CronField.matches : CronField → Int → Bool
  | .any, _ => true
  | .exact n, v => v = n

/-- Match of a rule against a local wall-clock time value (week day 7 is
Sunday, like 0). -/
def CronRule.matchesLocal (r : CronRule) (localTime : Int) : Bool :=
  r.second.matches (SecFromTime localTime) &&
  r.minute.matches (MinFromTime localTime) &&
  r.hour.matches (HourFromTime localTime) &&
  r.dayOfMonth.matches (DateFromTime localTime) &&
  r.month.matches (MonthFromTime localTime + 1) &&
  (r.dayOfWeek.matches (WeekDay localTime) || r.dayOfWeek.matches (WeekDay localTime + 7))

/-- Whether the task runs at instant `t`: node-cron converts the instant to
the wall clock of the task's time zone and matches the pattern against it. -/
def ScheduledTask.firesAt (task : ScheduledTask) (t : Int) : Bool :=
  match utcOffset task.timezone with
  | none => false
  | some offset => task.rule.matchesLocal (t + offset)

def Cron.reminderTasks (c : Cron) (id : Nat) : List ScheduledTask :=
  c.tasks.filter (fun task => task.action = .sendEmailForEvent id)

def Cron.purgeTasks (c : Cron) (id : Nat) : List ScheduledTask :=
  c.tasks.filter (fun task => task.action = .findByIdAndDelete id)

/-! ## The event model (`eventModel.js`) -/

structure Event where
  _id : Nat
  allday : Bool
  eventtime : Option String
  name : String
  invites : List Nat
  messagedate : DateValue
  eventdate : DateValue
  message : Option Nat
  is_deleted : Bool
  deleted_at : DateValue
deriving DecidableEq, Repr

/-- The call `Event.findByIdAndDelete(id)`: removes the document with that
`_id`, and nothing when there is none. -/
def Event.findByIdAndDelete (id : Nat) : List Event → List Event
  | [] => []
  | e :: es => if e._id = id then es else e :: Event.findByIdAndDelete id es

/-- The call `Event.findByIdAndUpdate(id, update, { new: true })`: the updated
document (or `null`) and the collection after the update. -/
def Event.findByIdAndUpdate (id : Nat) (update : Event → Event) :
    List Event → Option Event × List Event
  | [] => (none, [])
  | e :: es =>
    if e._id = id then (some (update e), update e :: es)
    else
      let r := Event.findByIdAndUpdate id update es
      (r.1, e :: r.2)

/-! ## `cronScheduler.js` -/

/-- The function `scheduleEventEmail(event)`. `now` is the clock that
`moment.utc` reads when `event.messagedate` is `undefined`. The result is how
the call ends (normally, or with a thrown error) and the live tasks after it. -/
def scheduleEventEmail (now : Int) (event : Event) (c : Cron) : Except String Unit × Cron :=
  let messagedate := moment.utc now event.messagedate
  let day := messagedate.date
  let month := messagedate.month.add 1
  let cronExpression := "0 7 " ++ day.toString ++ " " ++ month.toString ++ " *"
  match cron.schedule cronExpression (.sendEmailForEvent event._id) "Asia/Kathmandu" c with
  | (.ok _, c') => (.ok (), c')
  | (.error _, c') => (.ok (), c')

/-- The local variables of `deleteArchivedEvent`. -/
structure PurgeLocals where
  deleteDate : Moment
  day : JsNum
  month : JsNum
  hour : JsNum
  minute : JsNum
  cronExpression : String
deriving DecidableEq, Repr

/-- Lines 43-51 of `cronScheduler.js`: the purge date and the pattern. -/
def deleteArchivedEvent.locals (now : Int) (event : Event) : PurgeLocals :=
  let deletedAtDate := moment.utc now event.deleted_at
  let deleteDate := deletedAtDate.addDays 30
  { deleteDate := deleteDate
    day := deleteDate.date
    month := deleteDate.month.add 1
    hour := deleteDate.hour
    minute := deleteDate.minute
    cronExpression := "* * * * *" }

/-- The function `deleteArchivedEvent(event)`. -/
def deleteArchivedEvent (now : Int) (event : Event) (c : Cron) : Except String Unit × Cron :=
  let l := deleteArchivedEvent.locals now event
  match cron.schedule l.cronExpression (.findByIdAndDelete event._id) "Asia/Kathmandu" c with
  | (.ok _, c') => (.ok (), c')
  | (.error _, c') => (.ok (), c')

/-- The callback of a purge task, run on the event collection each time the
task fires: `await Event.findByIdAndDelete(event._id)`. -/
def deleteArchivedEvent.callback (id : Nat) (store : List Event) : List Event :=
  Event.findByIdAndDelete id store

/-! ## `index.js` -/

/-- The loop `events.forEach(f)`: stops at the first call that throws. -/
def forEachEvent (f : Event → Cron → Except String Unit × Cron) :
    List Event → Cron → Except String Unit × Cron
  | [], c => (.ok (), c)
  | e :: es, c =>
    match f e c with
    | (.ok _, c') => forEachEvent f es c'
    | (.error err, c') => (.error err, c')

/-- The query `Event.find({ is_deleted: true, deleted_at: { $exists: true } })`. -/
def archivedEvents (events : List Event) : List Event :=
  events.filter (fun e => e.is_deleted && decide (e.deleted_at ≠ .undefined))

/-- The function `connect()`. `db` is the event collection, or `none` when the
connection or a query is rejected; an error is caught and logged. -/
def connect (now : Int) (db : Option (List Event)) (c : Cron) : Cron :=
  match db with
  | none => c
  | some events =>
    match forEachEvent (scheduleEventEmail now) events c with
    | (.error _, c') => c'
    | (.ok _, c') => (forEachEvent (deleteArchivedEvent now) (archivedEvents events) c').2

/-! ## `eventController.js` -/

/-- The process state the handlers act on. -/
structure App where
  events : List Event
  cron : Cron
deriving DecidableEq, Repr

structure Response where
  status : Nat
  event : Option Event
deriving DecidableEq, Repr

structure CreateEventBody where
  allday : Bool
  eventtime : Option String
  name : Option String
  invites : List Nat
  messagedate : DateValue
  eventdate : DateValue
  messageContent : Option String
deriving DecidableEq, Repr

/-- The call `Event.create(doc)` with the validation of the schema: `name`,
`messagedate` and `eventdate` are required, and an Invalid Date is not cast.
`newId` is the `_id` the driver generates. -/
def Event.create (newId : Nat) (allday : Bool) (eventtime : Option String) (name : Option String)
    (invites : List Nat) (messagedate eventdate : DateValue) (message : Nat) :
    Except String Event :=
  match name, messagedate, eventdate with
  | some n, .time md, .time ed =>
    if n = "" then .error "Event validation failed"
    else .ok
      { _id := newId, allday := allday, eventtime := eventtime, name := n, invites := invites,
        messagedate := .time md, eventdate := .time ed, message := some message,
        is_deleted := false, deleted_at := .undefined }
  | _, _, _ => .error "Event validation failed"

/-- The handler `createEvent`. `messageCreated` is the outcome of
`Message.create` (the `_id` of the new message), whose model is not among the
sources. `.tz("Asia/Kathmandu")` changes how a moment is displayed, not its
time value, so `toDate()` returns the instant that was parsed. -/
def createEvent (now : Int) (newId : Nat) (messageCreated : Except String Nat)
    (body : CreateEventBody) (app : App) : Response × App :=
  let messageDate := (moment.utc now body.messagedate).toDate
  let eventDate := (moment.utc now body.eventdate).toDate
  match messageCreated with
  | .error _ => (⟨500, none⟩, app)
  | .ok messageId =>
    match Event.create newId body.allday body.eventtime body.name body.invites messageDate
        eventDate messageId with
    | .error _ => (⟨500, none⟩, app)
    | .ok event => (⟨201, some event⟩, { app with events := app.events ++ [event] })

/-- The handler `deleteEvent` (the soft delete). -/
def deleteEvent (now : Int) (id : Nat) (app : App) : Response × App :=
  match Event.findByIdAndUpdate id
      (fun e => { e with is_deleted := true, deleted_at := .time now }) app.events with
  | (none, _) => (⟨404, none⟩, app)
  | (some event, events) => (⟨200, some event⟩, { app with events := events })

/-- The task that `deleteArchivedEvent` registers for the event `id` (shown in
`deleteArchivedEvent_eq`): the pattern of every minute, in Nepal time. -/
def purgeTaskOf (id : Nat) : ScheduledTask :=
  ⟨"* * * * *", ⟨.exact 0, .any, .any, .any, .any, .any⟩, "Asia/Kathmandu", .findByIdAndDelete id⟩

/-! ### Pagination (`scheduleEvent`, `pastEvent`) -/

/-- White space that `parseInt` skips in front of the number: the ECMAScript
white space and line terminator characters (TAB, LF, VT, FF, CR, space,
U+00A0, U+1680, U+2000 to U+200A, U+2028, U+2029, U+202F, U+205F, U+3000,
U+FEFF). -/
def isWhiteSpace (c : Char) : Bool :=
  c = ' ' || c.toNat = 9 || c.toNat = 10 || c.toNat = 11 || c.toNat = 12 || c.toNat = 13 ||
  c.toNat = 160 || c.toNat = 5760 || (8192 ≤ c.toNat && c.toNat ≤ 8202) ||
  c.toNat = 8232 || c.toNat = 8233 || c.toNat = 8239 || c.toNat = 8287 ||
  c.toNat = 12288 || c.toNat = 65279

/-- Value of the longest run of decimal digits at the head of the text, `none`
when the text does not start with a digit. -/
def takeDigits : List Char → Option Nat → Option Nat
  | [], acc => acc
  | c :: cs, acc =>
    match digitValue c with
    | none => acc
    | some v => takeDigits cs (some (10 * acc.getD 0 + v))

/-- The call `parseInt(value, 10)` on a query value that is absent or a
string: white space, an optional sign, then the leading digits; `NaN` when
there is no digit (also for `undefined`). The result is kept as an exact
integer, as it is in JavaScript for every number below 2^53. -/
def parseInt (value : Option String) : JsNum :=
  match value with
  | none => .nan
  | some s =>
    match s.data.dropWhile isWhiteSpace with
    | '-' :: rest =>
      match takeDigits rest none with
      | none => .nan
      | some n => .num (-(n : Int))
    | '+' :: rest =>
      match takeDigits rest none with
      | none => .nan
      | some n => .num (n : Int)
    | rest =>
      match takeDigits rest none with
      | none => .nan
      | some n => .num (n : Int)

/-- The page size `parseInt(req.query.limit, 10) || 3`: `NaN` and `0` are
falsy. -/
def perPageOf (limit : Option String) : Int :=
  match parseInt limit with
  | .nan => 3
  | .num v => if v = 0 then 3 else v

structure PageResponse where
  success : Bool
  events : List Event
  nextCursor : Option Nat
deriving DecidableEq, Repr

/-- The handler `scheduleEvent` (future events, ascending `_id`). `find n` is
what `Event.find(query).sort({ _id: 1 }).limit(n)` returns for the query built
from the clock and the cursor. Reading `_id` of the last element of an empty
array throws. -/
def scheduleEvent (limit : Option String) (find : Int → List Event) :
    Except String PageResponse :=
  let perPage := perPageOf limit
  let events := find (perPage + 1)
  let hasNextPage : Bool := decide (perPage < (events.length : Int))
  let events := if hasNextPage then events.dropLast else events
  if hasNextPage then
    match events.getLast? with
    | none => .error "TypeError: cannot read _id of undefined"
    | some last => .ok ⟨true, events, some last._id⟩
  else .ok ⟨true, events, none⟩

/-- The handler `pastEvent` (past events, descending `_id`). `find n` is what
`Event.find(query).sort({ _id: -1 }).limit(n)` returns. -/
def pastEvent (limit : Option String) (find : Int → List Event) :
    Except String PageResponse :=
  let perPage := perPageOf limit
  let events := find (perPage + 1)
  let hasNextPage : Bool := decide (perPage < (events.length : Int))
  let events := if hasNextPage then events.dropLast else events
  if hasNextPage then
    match events.getLast? with
    | none => .error "TypeError: cannot read _id of undefined"
    | some last => .ok ⟨true, events, some last._id⟩
  else .ok ⟨true, events, none⟩

/-! ### Grouping by date (`getEventsByMonth`) -/

/-- The character of the last decimal digit of `n`. -/
def digitChar (n : Int) : Char := Char.ofNat (48 + (n % 10).toNat)

/-- The year of `toISOString()`: four digits, or a sign and six digits outside
0..9999. -/
def isoYearChars (y : Int) : List Char :=
  if 0 ≤ y ∧ y ≤ 9999 then
    [digitChar (y / 1000), digitChar (y / 100), digitChar (y / 10), digitChar y]
  else if y < 0 then
    ['-', digitChar (-y / 100000), digitChar (-y / 10000), digitChar (-y / 1000),
      digitChar (-y / 100), digitChar (-y / 10), digitChar (-y)]
  else
    ['+', digitChar (y / 100000), digitChar (y / 10000), digitChar (y / 1000),
      digitChar (y / 100), digitChar (y / 10), digitChar y]

/-- The text `new Date(t).toISOString().split("T")[0]`: the UTC calendar date
as `YYYY-MM-DD`, month and day with two digits. -/
def toISODate (t : Int) : String :=
  String.mk (isoYearChars (YearFromTime t) ++
    ['-', digitChar ((MonthFromTime t + 1) / 10), digitChar (MonthFromTime t + 1),
      '-', digitChar (DateFromTime t / 10), digitChar (DateFromTime t)])

/-- The key of an event in the reducer, `new Date(event.eventdate)` written as
an ISO date: `null` is the epoch, and `toISOString` throws on an Invalid
Date. -/
def eventDateKey : DateValue → Except String String
  | .time t => .ok (toISODate t)
  | .null => .ok (toISODate 0)
  | .undefined => .error "RangeError: Invalid time value"
  | .invalid => .error "RangeError: Invalid time value"

/-- One step of the reducer on the object `acc`, kept as its entries in
insertion order (the order of `Object.keys` for keys that are not array
indices): a new key gets a new array at the end, and the event is pushed onto
the array of its key. -/
def pushGrouped : List (String × List Event) → String → Event → List (String × List Event)
  | [], k, e => [(k, [e])]
  | (k', es) :: rest, k, e =>
    if k' = k then (k', es ++ [e]) :: rest else (k', es) :: pushGrouped rest k e

/-- The call `events.reduce(..., {})` of `getEventsByMonth`. -/
def groupedEvents : List Event → List (String × List Event) →
    Except String (List (String × List Event))
  | [], acc => .ok acc
  | e :: es, acc =>
    match eventDateKey e.eventdate with
    | .error err => .error err
    | .ok k => groupedEvents es (pushGrouped acc k e)

/-- What `getEventsByMonth` answers: the array of `{ success, date, events }`
entries, the object with the empty `events` array, the 400 for a missing
parameter, or the 500 of the `catch`. -/
inductive MonthResponse where
  | grouped (entries : List (String × List Event))
  | noEvents
  | badRequest
  | serverError (message : String)
deriving DecidableEq, Repr

/-- Truthiness of a query parameter: present and not the empty string. -/
def truthy (value : Option String) : Bool :=
  match value with
  | none => false
  | some s => decide (s ≠ "")

/-- The handler `getEventsByMonth`. `fetched` is what the query on the month
returns. -/
def getEventsByMonth (year month : Option String) (fetched : List Event) : MonthResponse :=
  if truthy year && truthy month then
    match groupedEvents fetched [] with
    | .error err => .serverError err
    | .ok grouped =>
      if grouped.length = 0 then .noEvents else .grouped grouped
  else .badRequest

/-- The ISO date of the `eventdate` of an event that holds a `Date`. -/
def Event.isoDate (e : Event) : String :=
  match e.eventdate with
  | .time t => toISODate t
  | _ => toISODate 0

/-- The distinct texts of a list, in the order of their first occurrence. -/
def distinctInOrder : List String → List String
  | [] => []
  | k :: ks => k :: (distinctInOrder ks).filter (fun x => decide (x ≠ k))

/-- The grouping as the specification words it: one entry per distinct date, in the
order in which the dates first occur, each entry holding the events of its
date in their original order. -/
def groupedByDateSpec (events : List Event) : List (String × List Event) :=
  (distinctInOrder (events.map Event.isoDate)).map
    (fun k => (k, events.filter (fun e => decide (e.isoDate = k))))

/-! ## Sample data -/

/-- An event document with the given `_id`, message date and archive state. -/
def sampleEvent (id : Nat) (messagedate : DateValue) (is_deleted : Bool)
    (deleted_at : DateValue) : Event :=
  { _id := id, allday := false, eventtime := some "2:35pm", name := "Birthday Party",
    invites := [], messagedate := messagedate, eventdate := .time 1722535200000,
    message := none, is_deleted := is_deleted, deleted_at := deleted_at }

/-- A create request whose dates are valid ISO 8601 instants. -/
def sampleBody : CreateEventBody :=
  { allday := false, eventtime := some "2:35pm", name := some "Birthday Party", invites := [],
    messagedate := .time 1719838020000, eventdate := .time 1722535200000,
    messageContent := some "come to the birthday" }

/-- An event document with the given `_id` and event date. -/
def sampleEventOn (id : Nat) (eventdate : Int) : Event :=
  { _id := id, allday := false, eventtime := none, name := "Annual Conference", invites := [],
    messagedate := .time 1719838020000, eventdate := .time eventdate, message := none,
    is_deleted := false, deleted_at := .undefined }

/-! ## Calendar lemmas -/

theorem DayFromYear_succ (y : Int) : DayFromYear (y + 1) = DayFromYear y + DaysInYear y := by
  simp only [DayFromYear, DaysInYear, isLeapYear]
  split_ifs with h <;> simp at h <;> omega

theorem DayFromYear_mono (a b : Int) (h : a ≤ b) : DayFromYear a ≤ DayFromYear b := by
  simp only [DayFromYear]
  omega

theorem YearFromDay_spec (d : Int) :
    DayFromYear (YearFromDay d) ≤ d ∧ d < DayFromYear (YearFromDay d + 1) := by
  simp only [YearFromDay]
  split_ifs with h1 h2
  · refine ⟨h1, ?_⟩
    simp only [DayFromYear] at *
    omega
  · refine ⟨?_, ?_⟩
    · simp only [DayFromYear] at *
      omega
    · simpa using h2
  · exact ⟨by omega, by omega⟩

theorem YearFromDay_unique (d y : Int) (h1 : DayFromYear y ≤ d) (h2 : d < DayFromYear (y + 1)) :
    YearFromDay d = y := by
  obtain ⟨h3, h4⟩ := YearFromDay_spec d
  by_contra hne
  rcases lt_or_gt_of_ne hne with hlt | hgt
  · have := DayFromYear_mono (YearFromDay d + 1) y (by omega)
    omega
  · have := DayFromYear_mono (y + 1) (YearFromDay d) (by omega)
    omega

theorem DayWithinYear_range (t : Int) :
    0 ≤ DayWithinYear t ∧ DayWithinYear t < DaysInYear (YearFromTime t) := by
  obtain ⟨h1, h2⟩ := YearFromDay_spec (Day t)
  rw [DayFromYear_succ] at h2
  simp only [DayWithinYear, YearFromTime]
  omega

theorem InLeapYear_eq (t : Int) : InLeapYear t = DaysInYear (YearFromTime t) - 365 := by
  unfold InLeapYear DaysInYear
  cases isLeapYear (YearFromTime t) <;> simp

theorem DaysInYear_cases (y : Int) :
    (isLeapYear y = true ∧ DaysInYear y = 366) ∨ (isLeapYear y = false ∧ DaysInYear y = 365) := by
  unfold DaysInYear
  cases isLeapYear y <;> simp

theorem daysBeforeMonth_table (y : Int) :
    daysBeforeMonth y 0 = 0 ∧ daysBeforeMonth y 1 = 31 ∧
    daysBeforeMonth y 2 = DaysInYear y - 306 ∧ daysBeforeMonth y 3 = DaysInYear y - 275 ∧
    daysBeforeMonth y 4 = DaysInYear y - 245 ∧ daysBeforeMonth y 5 = DaysInYear y - 214 ∧
    daysBeforeMonth y 6 = DaysInYear y - 184 ∧ daysBeforeMonth y 7 = DaysInYear y - 153 ∧
    daysBeforeMonth y 8 = DaysInYear y - 122 ∧ daysBeforeMonth y 9 = DaysInYear y - 92 ∧
    daysBeforeMonth y 10 = DaysInYear y - 61 ∧ daysBeforeMonth y 11 = DaysInYear y - 31 :=
  ⟨rfl, rfl, rfl, rfl, rfl, rfl, rfl, rfl, rfl, rfl, rfl, rfl⟩

theorem daysInMonth_table (y : Int) :
    daysInMonth y 0 = 31 ∧ daysInMonth y 1 = DaysInYear y - 337 ∧ daysInMonth y 2 = 31 ∧
    daysInMonth y 3 = 30 ∧ daysInMonth y 4 = 31 ∧ daysInMonth y 5 = 30 ∧
    daysInMonth y 6 = 31 ∧ daysInMonth y 7 = 31 ∧ daysInMonth y 8 = 30 ∧
    daysInMonth y 9 = 31 ∧ daysInMonth y 10 = 30 ∧ daysInMonth y 11 = 31 :=
  ⟨rfl, rfl, rfl, rfl, rfl, rfl, rfl, rfl, rfl, rfl, rfl, rfl⟩

/-- The month is the one whose days of the year contain the day. -/
theorem MonthFromTime_spec (t : Int) :
    0 ≤ MonthFromTime t ∧ MonthFromTime t ≤ 11 ∧
    daysBeforeMonth (YearFromTime t) (MonthFromTime t) ≤ DayWithinYear t ∧
    DayWithinYear t <
      daysBeforeMonth (YearFromTime t) (MonthFromTime t) +
        daysInMonth (YearFromTime t) (MonthFromTime t) := by
  obtain ⟨h1, h2⟩ := DayWithinYear_range t
  have h3 : DaysInYear (YearFromTime t) = 365 ∨ DaysInYear (YearFromTime t) = 366 := by
    rcases DaysInYear_cases (YearFromTime t) with h | h <;> omega
  generalize hmg : MonthFromTime t = m
  unfold MonthFromTime at hmg
  rw [InLeapYear_eq] at hmg
  generalize DayWithinYear t = d at *
  generalize YearFromTime t = y at *
  by_cases c0 : d < 31
  · rw [if_pos c0] at hmg; subst hmg; simp only [daysBeforeMonth_table, daysInMonth_table]; omega
  rw [if_neg c0] at hmg
  by_cases c1 : d < 59 + (DaysInYear y - 365)
  · rw [if_pos c1] at hmg; subst hmg; simp only [daysBeforeMonth_table, daysInMonth_table]; omega
  rw [if_neg c1] at hmg
  by_cases c2 : d < 90 + (DaysInYear y - 365)
  · rw [if_pos c2] at hmg; subst hmg; simp only [daysBeforeMonth_table, daysInMonth_table]; omega
  rw [if_neg c2] at hmg
  by_cases c3 : d < 120 + (DaysInYear y - 365)
  · rw [if_pos c3] at hmg; subst hmg; simp only [daysBeforeMonth_table, daysInMonth_table]; omega
  rw [if_neg c3] at hmg
  by_cases c4 : d < 151 + (DaysInYear y - 365)
  · rw [if_pos c4] at hmg; subst hmg; simp only [daysBeforeMonth_table, daysInMonth_table]; omega
  rw [if_neg c4] at hmg
  by_cases c5 : d < 181 + (DaysInYear y - 365)
  · rw [if_pos c5] at hmg; subst hmg; simp only [daysBeforeMonth_table, daysInMonth_table]; omega
  rw [if_neg c5] at hmg
  by_cases c6 : d < 212 + (DaysInYear y - 365)
  · rw [if_pos c6] at hmg; subst hmg; simp only [daysBeforeMonth_table, daysInMonth_table]; omega
  rw [if_neg c6] at hmg
  by_cases c7 : d < 243 + (DaysInYear y - 365)
  · rw [if_pos c7] at hmg; subst hmg; simp only [daysBeforeMonth_table, daysInMonth_table]; omega
  rw [if_neg c7] at hmg
  by_cases c8 : d < 273 + (DaysInYear y - 365)
  · rw [if_pos c8] at hmg; subst hmg; simp only [daysBeforeMonth_table, daysInMonth_table]; omega
  rw [if_neg c8] at hmg
  by_cases c9 : d < 304 + (DaysInYear y - 365)
  · rw [if_pos c9] at hmg; subst hmg; simp only [daysBeforeMonth_table, daysInMonth_table]; omega
  rw [if_neg c9] at hmg
  by_cases c10 : d < 334 + (DaysInYear y - 365)
  · rw [if_pos c10] at hmg; subst hmg; simp only [daysBeforeMonth_table, daysInMonth_table]; omega
  rw [if_neg c10] at hmg
  subst hmg
  simp only [daysBeforeMonth_table, daysInMonth_table]
  omega

theorem MonthFromTime_range (t : Int) : 0 ≤ MonthFromTime t ∧ MonthFromTime t ≤ 11 :=
  ⟨(MonthFromTime_spec t).1, (MonthFromTime_spec t).2.1⟩

theorem DateFromTime_range (t : Int) :
    1 ≤ DateFromTime t ∧ DateFromTime t ≤ daysInMonth (YearFromTime t) (MonthFromTime t) := by
  obtain ⟨_, _, h3, h4⟩ := MonthFromTime_spec t
  unfold DateFromTime
  omega

theorem daysInMonth_le (y m : Int) (hm0 : 0 ≤ m) (hm1 : m ≤ 11) :
    28 ≤ daysInMonth y m ∧ daysInMonth y m ≤ 31 := by
  have h3 : DaysInYear y = 365 ∨ DaysInYear y = 366 := by
    rcases DaysInYear_cases y with h | h <;> omega
  interval_cases m <;> simp only [daysInMonth_table] <;> omega

theorem MakeDay_of_month (y m d : Int) (hm0 : 0 ≤ m) (hm1 : m ≤ 11) :
    MakeDay y m d = DayFromYear y + daysBeforeMonth y m + d - 1 := by
  have hm : m / 12 = 0 := by omega
  have hn : m % 12 = m := by omega
  simp only [MakeDay, hm, hn, add_zero]

theorem MakeDay_fields (t k : Int) :
    MakeDay (YearFromTime t) (MonthFromTime t) (DateFromTime t + k) = Day t + k := by
  obtain ⟨h0, h11⟩ := MonthFromTime_range t
  rw [MakeDay_of_month _ _ _ h0 h11]
  simp only [DateFromTime, DayWithinYear]
  omega

theorem Day_MakeDate (day tod : Int) (ht0 : 0 ≤ tod) (ht1 : tod < msPerDay) :
    Day (MakeDate day tod) = day := by
  simp only [Day, MakeDate, msPerDay] at *
  omega

theorem daysBeforeMonth_bounds (y m d : Int) (hm0 : 0 ≤ m) (hm1 : m ≤ 11) (hd0 : 1 ≤ d)
    (hd1 : d ≤ daysInMonth y m) :
    0 ≤ daysBeforeMonth y m + d - 1 ∧ daysBeforeMonth y m + d - 1 < DaysInYear y := by
  have h3 : DaysInYear y = 365 ∨ DaysInYear y = 366 := by
    rcases DaysInYear_cases y with h | h <;> omega
  interval_cases m <;> simp only [daysBeforeMonth_table, daysInMonth_table] at hd1 ⊢ <;> omega

theorem fields_of_MakeDay (y m d tod : Int) (hm0 : 0 ≤ m) (hm1 : m ≤ 11) (hd0 : 1 ≤ d)
    (hd1 : d ≤ daysInMonth y m) (ht0 : 0 ≤ tod) (ht1 : tod < msPerDay) :
    YearFromTime (MakeDate (MakeDay y m d) tod) = y ∧
    MonthFromTime (MakeDate (MakeDay y m d) tod) = m ∧
    DateFromTime (MakeDate (MakeDay y m d) tod) = d := by
  have hday := Day_MakeDate (MakeDay y m d) tod ht0 ht1
  have hmk := MakeDay_of_month y m d hm0 hm1
  obtain ⟨hb0, hb1⟩ := daysBeforeMonth_bounds y m d hm0 hm1 hd0 hd1
  have hy : YearFromTime (MakeDate (MakeDay y m d) tod) = y := by
    rw [YearFromTime, hday, hmk]
    apply YearFromDay_unique
    · omega
    · rw [DayFromYear_succ]
      omega
  have hdw : DayWithinYear (MakeDate (MakeDay y m d) tod) = daysBeforeMonth y m + d - 1 := by
    rw [DayWithinYear, hy, hday, hmk]
    omega
  obtain ⟨s0, s1, s2, s3⟩ := MonthFromTime_spec (MakeDate (MakeDay y m d) tod)
  rw [hy, hdw] at s2 s3
  have hmo : MonthFromTime (MakeDate (MakeDay y m d) tod) = m := by
    have h3 : DaysInYear y = 365 ∨ DaysInYear y = 366 := by
      rcases DaysInYear_cases y with h | h <;> omega
    generalize MonthFromTime (MakeDate (MakeDay y m d) tod) = m2 at *
    clear hmk hday hy hdw hb0 hb1
    interval_cases m <;> interval_cases m2 <;>
      simp only [daysBeforeMonth_table, daysInMonth_table] at hd1 s2 s3 <;> omega
  refine ⟨hy, hmo, ?_⟩
  rw [DateFromTime, hdw, hy, hmo]
  omega

theorem leap_of_feb29 (t : Int) (hm : MonthFromTime t = 1) (hd : DateFromTime t = 29) :
    isLeapYear (YearFromTime t) = true := by
  have h := (DateFromTime_range t).2
  rw [hm, hd] at h
  simp only [daysInMonth_table] at h
  rcases DaysInYear_cases (YearFromTime t) with ⟨hl, _⟩ | ⟨_, hn⟩
  · exact hl
  · omega

/-! ## Pattern, scheduler and collection lemmas -/

theorem parsePattern_reminder_fin : ∀ d : Fin 32, ∀ m : Fin 13, 1 ≤ d.val → 1 ≤ m.val →
    parsePattern ("0 7 " ++ (JsNum.num (d.val : Int)).toString ++ " " ++
        (JsNum.num (m.val : Int)).toString ++ " *") =
      some ⟨.exact 0, .exact 0, .exact 7, .exact (d.val : Int), .exact (m.val : Int), .any⟩ := by
  decide

theorem parsePattern_reminder (d m : Int) (hd0 : 1 ≤ d) (hd1 : d ≤ 31) (hm0 : 1 ≤ m)
    (hm1 : m ≤ 12) :
    parsePattern ("0 7 " ++ (JsNum.num d).toString ++ " " ++ (JsNum.num m).toString ++ " *") =
      some ⟨.exact 0, .exact 0, .exact 7, .exact d, .exact m, .any⟩ := by
  lift d to Nat using by omega
  lift m to Nat using by omega
  have hd : d < 32 := by omega
  have hm : m < 13 := by omega
  exact parsePattern_reminder_fin ⟨d, hd⟩ ⟨m, hm⟩ (by simpa using hd0) (by simpa using hm0)

theorem parsePattern_everyMinute :
    parsePattern "* * * * *" = some ⟨.exact 0, .any, .any, .any, .any, .any⟩ := by
  decide

theorem parsePattern_nan : parsePattern "0 7 NaN NaN *" = none := by
  decide

/-- The task `scheduleEventEmail` registers when `moment.utc` reads the
instant `t` from the event. -/
theorem scheduleEventEmail_valid (now t : Int) (event : Event) (c : Cron)
    (h : moment.utc now event.messagedate = .valid t) :
    scheduleEventEmail now event c =
      (.ok (), ⟨c.tasks ++
        [⟨"0 7 " ++ toString (DateFromTime t) ++ " " ++ toString (MonthFromTime t + 1) ++ " *",
          ⟨.exact 0, .exact 0, .exact 7, .exact (DateFromTime t), .exact (MonthFromTime t + 1),
            .any⟩,
          "Asia/Kathmandu", .sendEmailForEvent event._id⟩]⟩) := by
  obtain ⟨hd0, hd1⟩ := DateFromTime_range t
  obtain ⟨hm0, hm1⟩ := MonthFromTime_range t
  have hd2 := (daysInMonth_le (YearFromTime t) (MonthFromTime t) hm0 hm1).2
  have hp := parsePattern_reminder (DateFromTime t) (MonthFromTime t + 1) hd0 (by omega)
    (by omega) (by omega)
  simp only [JsNum.toString] at hp
  simp only [scheduleEventEmail, h, Moment.date, Moment.month, JsNum.add,
    JsNum.toString, cron.schedule, hp]

theorem scheduleEventEmail_time (now t : Int) (event : Event) (c : Cron)
    (h : event.messagedate = .time t) :
    scheduleEventEmail now event c =
      (.ok (), ⟨c.tasks ++
        [⟨"0 7 " ++ toString (DateFromTime t) ++ " " ++ toString (MonthFromTime t + 1) ++ " *",
          ⟨.exact 0, .exact 0, .exact 7, .exact (DateFromTime t), .exact (MonthFromTime t + 1),
            .any⟩,
          "Asia/Kathmandu", .sendEmailForEvent event._id⟩]⟩) :=
  scheduleEventEmail_valid now t event c (by rw [h]; rfl)

/-- When `moment.utc` gives an invalid moment the pattern is `0 7 NaN NaN *`,
node-cron rejects it, the error is caught and no task is registered. -/
theorem scheduleEventEmail_invalid (now : Int) (event : Event) (c : Cron)
    (h : moment.utc now event.messagedate = .invalid) :
    scheduleEventEmail now event c = (.ok (), c) := by
  have hp : parsePattern ("0 7 " ++ "NaN" ++ " " ++ "NaN" ++ " *") = none := by decide
  simp only [scheduleEventEmail, h, Moment.date, Moment.month, JsNum.add, JsNum.toString,
    cron.schedule, hp]

theorem moment_utc_cases (now : Int) (d : DateValue) :
    moment.utc now d = .invalid ∨ ∃ t, moment.utc now d = .valid t := by
  cases d
  · exact Or.inr ⟨now, rfl⟩
  · exact Or.inl rfl
  · exact Or.inl rfl
  · exact Or.inr ⟨_, rfl⟩

/-- The call never throws and never removes a task. -/
theorem scheduleEventEmail_appends (now : Int) (event : Event) (c : Cron) :
    ∃ tasks, scheduleEventEmail now event c = (.ok (), ⟨c.tasks ++ tasks⟩) := by
  rcases moment_utc_cases now event.messagedate with h | ⟨t, h⟩
  · exact ⟨[], by rw [scheduleEventEmail_invalid now event c h, List.append_nil]⟩
  · exact ⟨_, scheduleEventEmail_valid now t event c h⟩

theorem deleteArchivedEvent_eq (now : Int) (event : Event) (c : Cron) :
    deleteArchivedEvent now event c = (.ok (), ⟨c.tasks ++ [purgeTaskOf event._id]⟩) := by
  have hl : (deleteArchivedEvent.locals now event).cronExpression = "* * * * *" := rfl
  simp only [deleteArchivedEvent, hl, cron.schedule, parsePattern_everyMinute, purgeTaskOf]

theorem firesAt_purgeTaskOf (id : Nat) (u : Int) :
    (purgeTaskOf id).firesAt u = true ↔ SecFromTime u = 0 := by
  have hs : SecFromTime (u + 20700000) = SecFromTime u := by
    simp only [SecFromTime, msPerSecond]
    omega
  simp [purgeTaskOf, ScheduledTask.firesAt, utcOffset, CronRule.matchesLocal, CronField.matches,
    hs]

theorem forEachEvent_scheduleEventEmail (now : Int) (events : List Event) (c : Cron) :
    ∃ tasks, forEachEvent (scheduleEventEmail now) events c = (.ok (), ⟨c.tasks ++ tasks⟩) := by
  induction events generalizing c with
  | nil => exact ⟨[], by simp [forEachEvent]⟩
  | cons e es ih =>
    obtain ⟨ts, hts⟩ := scheduleEventEmail_appends now e c
    obtain ⟨ts2, hts2⟩ := ih ⟨c.tasks ++ ts⟩
    refine ⟨ts ++ ts2, ?_⟩
    simp only [forEachEvent, hts, hts2, List.append_assoc]

theorem forEachEvent_deleteArchivedEvent (now : Int) (events : List Event) (c : Cron) :
    forEachEvent (deleteArchivedEvent now) events c =
      (.ok (), ⟨c.tasks ++ events.map (fun e => purgeTaskOf e._id)⟩) := by
  induction events generalizing c with
  | nil => simp [forEachEvent]
  | cons e es ih =>
    simp only [forEachEvent, deleteArchivedEvent_eq, ih, List.map_cons, List.append_assoc,
      List.singleton_append]

theorem findByIdAndDelete_absent (id : Nat) (store : List Event)
    (h : ∀ e ∈ store, e._id ≠ id) : Event.findByIdAndDelete id store = store := by
  induction store with
  | nil => rfl
  | cons e es ih =>
    have he : e._id ≠ id := h e (List.mem_cons_self _ _)
    simp only [Event.findByIdAndDelete, he, if_false]
    rw [ih (fun x hx => h x (List.mem_cons_of_mem _ hx))]

theorem findByIdAndDelete_length (id : Nat) (store : List Event) (e : Event) (he : e ∈ store)
    (hid : e._id = id) : (Event.findByIdAndDelete id store).length + 1 = store.length := by
  induction store with
  | nil => cases he
  | cons x xs ih =>
    by_cases hx : x._id = id
    · simp only [Event.findByIdAndDelete, hx, if_true, List.length_cons]
    · have hmem : e ∈ xs := by
        rcases List.mem_cons.mp he with h | h
        · exact absurd (h ▸ hid) hx
        · exact h
      simp only [Event.findByIdAndDelete, hx, if_false, List.length_cons, ih hmem]

theorem findByIdAndDelete_keeps (id : Nat) (store : List Event) (e : Event) (he : e ∈ store)
    (hid : e._id ≠ id) : e ∈ Event.findByIdAndDelete id store := by
  induction store with
  | nil => cases he
  | cons x xs ih =>
    by_cases hx : x._id = id
    · simp only [Event.findByIdAndDelete, hx, if_true]
      rcases List.mem_cons.mp he with h | h
      · exact absurd (h ▸ hx) hid
      · exact h
    · simp only [Event.findByIdAndDelete, hx, if_false]
      rcases List.mem_cons.mp he with h | h
      · exact h ▸ List.mem_cons_self _ _
      · exact List.mem_cons_of_mem _ (ih h)

theorem findByIdAndDelete_subset (id : Nat) (store : List Event) (e : Event)
    (he : e ∈ Event.findByIdAndDelete id store) : e ∈ store := by
  induction store with
  | nil => exact he
  | cons x xs ih =>
    by_cases hx : x._id = id
    · simp only [Event.findByIdAndDelete, hx, if_true] at he
      exact List.mem_cons_of_mem _ he
    · simp only [Event.findByIdAndDelete, hx, if_false] at he
      rcases List.mem_cons.mp he with h | h
      · exact h ▸ List.mem_cons_self _ _
      · exact List.mem_cons_of_mem _ (ih h)

theorem findByIdAndDelete_gone (id : Nat) (store : List Event)
    (hnd : (store.map (fun e => e._id)).Nodup) :
    ∀ e ∈ Event.findByIdAndDelete id store, e._id ≠ id := by
  induction store with
  | nil => intro e he; cases he
  | cons x xs ih =>
    rw [List.map_cons, List.nodup_cons] at hnd
    by_cases hx : x._id = id
    · simp only [Event.findByIdAndDelete, hx, if_true]
      intro e he heq
      exact hnd.1 (List.mem_map.mpr ⟨e, he, by rw [heq, hx]⟩)
    · simp only [Event.findByIdAndDelete, hx, if_false]
      intro e he
      rcases List.mem_cons.mp he with h | h
      · rw [h]; exact hx
      · exact ih hnd.2 e h

theorem findByIdAndUpdate_absent (id : Nat) (f : Event → Event) (store : List Event)
    (h : ∀ e ∈ store, e._id ≠ id) : Event.findByIdAndUpdate id f store = (none, store) := by
  induction store with
  | nil => rfl
  | cons e es ih =>
    have he : e._id ≠ id := h e (List.mem_cons_self _ _)
    simp only [Event.findByIdAndUpdate, he, if_false,
      ih (fun x hx => h x (List.mem_cons_of_mem _ hx))]

theorem findByIdAndUpdate_present (id : Nat) (f : Event → Event) (store : List Event)
    (h : ∃ e ∈ store, e._id = id) :
    ∃ e ∈ store, e._id = id ∧ (Event.findByIdAndUpdate id f store).1 = some (f e) ∧
      f e ∈ (Event.findByIdAndUpdate id f store).2 := by
  induction store with
  | nil => obtain ⟨e, he, _⟩ := h; cases he
  | cons x xs ih =>
    by_cases hx : x._id = id
    · refine ⟨x, List.mem_cons_self _ _, hx, ?_, ?_⟩
      · simp only [Event.findByIdAndUpdate, hx, if_true]
      · simp only [Event.findByIdAndUpdate, hx, if_true, List.mem_cons, true_or]
    · have h2 : ∃ e ∈ xs, e._id = id := by
        obtain ⟨e, he, hid⟩ := h
        rcases List.mem_cons.mp he with h1 | h1
        · exact absurd (h1 ▸ hid) hx
        · exact ⟨e, h1, hid⟩
      obtain ⟨e, he, hid, h3, h4⟩ := ih h2
      refine ⟨e, List.mem_cons_of_mem _ he, hid, ?_, ?_⟩
      · simp only [Event.findByIdAndUpdate, hx, if_false, h3]
      · simp only [Event.findByIdAndUpdate, hx, if_false]
        exact List.mem_cons_of_mem _ h4

theorem firesAt_reminder (expression : String) (d m : Int) (action : TaskAction) (u : Int) :
    (ScheduledTask.firesAt
      ⟨expression, ⟨.exact 0, .exact 0, .exact 7, .exact d, .exact m, .any⟩, "Asia/Kathmandu",
        action⟩ u = true) ↔
    (SecFromTime (u + 20700000) = 0 ∧ MinFromTime (u + 20700000) = 0 ∧
      HourFromTime (u + 20700000) = 7 ∧ DateFromTime (u + 20700000) = d ∧
      MonthFromTime (u + 20700000) + 1 = m) := by
  simp [ScheduledTask.firesAt, utcOffset, CronRule.matchesLocal, CronField.matches, and_assoc]

theorem Moment.addDays_valid (t n v : Int)
    (hv : TimeClip (MakeDate (MakeDay (YearFromTime t) (MonthFromTime t) (DateFromTime t + n))
        (TimeWithinDay t)) = some v) :
    (Moment.valid t).addDays n = .valid v := by
  show (match TimeClip (MakeDate (MakeDay (YearFromTime t) (MonthFromTime t) (DateFromTime t + n))
        (TimeWithinDay t)) with
    | some v => Moment.valid v
    | none => Moment.invalid) = _
  rw [hv]

/-- Adding 30 days through the calendar fields adds 30 times 24 hours. -/
theorem addDays_thirty (t : Int)
    (hlo : -8640000000000000 ≤ t + 30 * msPerDay) (hhi : t + 30 * msPerDay ≤ 8640000000000000) :
    (Moment.valid t).addDays 30 = .valid (t + 30 * msPerDay) := by
  apply Moment.addDays_valid
  have hv : MakeDate (MakeDay (YearFromTime t) (MonthFromTime t) (DateFromTime t + 30))
      (TimeWithinDay t) = t + 30 * msPerDay := by
    rw [MakeDay_fields]
    simp only [MakeDate, Day, TimeWithinDay, msPerDay]
    omega
  rw [hv, TimeClip, if_pos ⟨hlo, hhi⟩]

/-! ## The claims -/

/-- C1: for every event whose `messagedate` is a valid instant `t`,
`scheduleEventEmail` returns normally and registers exactly one task. Its
pattern is `0 7 <day> <month> *` with the UTC day and month (1..12) of `t`, it
is valid, its time zone is Asia/Kathmandu and its callback sends the mail of
that event. The task fires exactly at 07:00:00 Nepal time on that day and
month, whatever the year, and it does so in every year that has that date. -/
theorem scheduleEventEmail_registers_yearly_rule (now t : Int) (event : Event) (c : Cron)
    (h : event.messagedate = .time t) :
    ∃ task : ScheduledTask,
      scheduleEventEmail now event c = (.ok (), ⟨c.tasks ++ [task]⟩) ∧
      task.expression =
        "0 7 " ++ toString (DateFromTime t) ++ " " ++ toString (MonthFromTime t + 1) ++ " *" ∧
      parsePattern task.expression = some task.rule ∧
      task.rule =
        ⟨.exact 0, .exact 0, .exact 7, .exact (DateFromTime t), .exact (MonthFromTime t + 1),
          .any⟩ ∧
      1 ≤ MonthFromTime t + 1 ∧ MonthFromTime t + 1 ≤ 12 ∧
      1 ≤ DateFromTime t ∧ DateFromTime t ≤ 31 ∧
      task.timezone = "Asia/Kathmandu" ∧
      task.action = .sendEmailForEvent event._id ∧
      (∀ u : Int, task.firesAt u = true ↔
        (SecFromTime (u + 20700000) = 0 ∧ MinFromTime (u + 20700000) = 0 ∧
          HourFromTime (u + 20700000) = 7 ∧
          DateFromTime (u + 20700000) = DateFromTime t ∧
          MonthFromTime (u + 20700000) = MonthFromTime t)) ∧
      (∀ y : Int, DateFromTime t ≤ daysInMonth y (MonthFromTime t) →
        task.firesAt
          (MakeDate (MakeDay y (MonthFromTime t) (DateFromTime t)) (7 * msPerHour) - 20700000) =
            true) := by
  obtain ⟨hd0, hd1⟩ := DateFromTime_range t
  obtain ⟨hm0, hm1⟩ := MonthFromTime_range t
  have hd2 := (daysInMonth_le (YearFromTime t) (MonthFromTime t) hm0 hm1).2
  have hfire := firesAt_reminder
    ("0 7 " ++ toString (DateFromTime t) ++ " " ++ toString (MonthFromTime t + 1) ++ " *")
    (DateFromTime t) (MonthFromTime t + 1) (.sendEmailForEvent event._id)
  refine ⟨_, scheduleEventEmail_time now t event c h, rfl, ?_, rfl, by omega, by omega, hd0,
    by omega, rfl, rfl, ?_, ?_⟩
  · have hp := parsePattern_reminder (DateFromTime t) (MonthFromTime t + 1) hd0 (by omega)
      (by omega) (by omega)
    simpa only [JsNum.toString] using hp
  · intro u
    rw [hfire u]
    constructor
    · rintro ⟨a, b, c, d, e⟩
      exact ⟨a, b, c, d, by omega⟩
    · rintro ⟨a, b, c, d, e⟩
      exact ⟨a, b, c, d, by omega⟩
  · intro y hy
    rw [hfire]
    have hsub : MakeDate (MakeDay y (MonthFromTime t) (DateFromTime t)) (7 * msPerHour) -
        20700000 + 20700000 =
        MakeDate (MakeDay y (MonthFromTime t) (DateFromTime t)) (7 * msPerHour) := by omega
    rw [hsub]
    obtain ⟨_, f2, f3⟩ := fields_of_MakeDay y (MonthFromTime t) (DateFromTime t) (7 * msPerHour)
      hm0 hm1 hd0 hy (by decide) (by decide)
    refine ⟨?_, ?_, ?_, f3, by omega⟩
    · simp only [SecFromTime, MakeDate, msPerDay, msPerHour, msPerSecond]
      omega
    · simp only [MinFromTime, MakeDate, msPerDay, msPerHour, msPerMinute]
      omega
    · simp only [HourFromTime, MakeDate, msPerDay, msPerHour]
      omega

theorem scheduleEventEmail_registers_yearly_rule_witness :
    ∃ task : ScheduledTask,
      scheduleEventEmail 0 (sampleEvent 1 (.time 1719838020000) false .undefined) ⟨[]⟩ =
        (.ok (), ⟨[] ++ [task]⟩) ∧
      task.expression = "0 7 1 7 *" ∧
      task.timezone = "Asia/Kathmandu" ∧
      task.action = .sendEmailForEvent 1 := by
  obtain ⟨task, h1, h2, _, _, _, _, _, _, h9, h10, _⟩ :=
    scheduleEventEmail_registers_yearly_rule 0 1719838020000
      (sampleEvent 1 (.time 1719838020000) false .undefined) ⟨[]⟩ rfl
  exact ⟨task, h1, h2.trans (by decide), h9, h10⟩

/-- C2: for every archival instant `t` whose purge date is a representable
`Date`, the purge date `deleteArchivedEvent` computes is `t` plus 30 days of
24 hours, and the day, month (1..12), hour and minute it derives are the UTC
calendar fields of that instant; archival at 2024-01-01T00:00:00Z gives
2024-01-31T00:00:00Z, that is day 31, month 1, hour 0, minute 0. -/
theorem deleteArchivedEvent_purge_date (now t : Int) (event : Event)
    (h : event.deleted_at = .time t)
    (hlo : -8640000000000000 ≤ t + 30 * msPerDay) (hhi : t + 30 * msPerDay ≤ 8640000000000000) :
    (deleteArchivedEvent.locals now event).deleteDate = .valid (t + 30 * msPerDay) ∧
    (deleteArchivedEvent.locals now event).day = .num (DateFromTime (t + 30 * msPerDay)) ∧
    (deleteArchivedEvent.locals now event).month = .num (MonthFromTime (t + 30 * msPerDay) + 1) ∧
    (deleteArchivedEvent.locals now event).hour = .num (HourFromTime (t + 30 * msPerDay)) ∧
    (deleteArchivedEvent.locals now event).minute = .num (MinFromTime (t + 30 * msPerDay)) ∧
    (deleteArchivedEvent.locals now
        (sampleEvent 1 (.time 1719838020000) true (.time 1704067200000))) =
      { deleteDate := .valid 1706659200000, day := .num 31, month := .num 1, hour := .num 0,
        minute := .num 0, cronExpression := "* * * * *" } := by
  have hadd : (moment.utc now event.deleted_at).addDays 30 = .valid (t + 30 * msPerDay) := by
    rw [h]
    exact addDays_thirty t hlo hhi
  refine ⟨?_, ?_, ?_, ?_, ?_, ?_⟩
  · simp only [deleteArchivedEvent.locals, hadd]
  · simp only [deleteArchivedEvent.locals, hadd, Moment.date]
  · simp only [deleteArchivedEvent.locals, hadd, Moment.month, JsNum.add]
  · simp only [deleteArchivedEvent.locals, hadd, Moment.hour]
  · simp only [deleteArchivedEvent.locals, hadd, Moment.minute]
  · rfl

theorem deleteArchivedEvent_purge_date_witness :
    (deleteArchivedEvent.locals 0
        (sampleEvent 2 (.time 1719838020000) true (.time 1701426600000))).deleteDate =
      .valid (1701426600000 + 30 * msPerDay) :=
  (deleteArchivedEvent_purge_date 0 1701426600000
    (sampleEvent 2 (.time 1719838020000) true (.time 1701426600000)) rfl (by decide)
    (by decide)).1

/-- C3 (the code at a failing input): for an event archived at
2024-01-01T00:00:00Z the task `deleteArchivedEvent` registers has the pattern
`* * * * *`; it fires at 2024-01-01T00:01:00Z, one minute after archival and
30 days less a minute before the purge date 2024-01-31T00:00:00Z, and its
callback then deletes the event. -/
theorem deleteArchivedEvent_fires_before_purge_date :
    ∃ task : ScheduledTask,
      deleteArchivedEvent 1704067200000
          (sampleEvent 1 (.time 1719838020000) true (.time 1704067200000)) ⟨[]⟩ =
        (.ok (), ⟨[task]⟩) ∧
      task.expression = "* * * * *" ∧
      task.action = .findByIdAndDelete 1 ∧
      (deleteArchivedEvent.locals 1704067200000
          (sampleEvent 1 (.time 1719838020000) true (.time 1704067200000))).deleteDate =
        .valid 1706659200000 ∧
      task.firesAt 1704067260000 = true ∧
      (1704067260000 : Int) < 1706659200000 ∧
      deleteArchivedEvent.callback 1
          [sampleEvent 1 (.time 1719838020000) true (.time 1704067200000)] = [] := by
  refine ⟨⟨"* * * * *", ⟨.exact 0, .any, .any, .any, .any, .any⟩, "Asia/Kathmandu",
    .findByIdAndDelete 1⟩, rfl, rfl, rfl, ?_, ?_, ?_, ?_⟩ <;> decide

/-- C4 (counterexample): two calls of `scheduleEventEmail` for the event with
`_id` 7, the second after its `messagedate` has changed, leave two live
reminder tasks for that id, not one; the first still carries the rule of the
old date. -/
theorem scheduleEventEmail_twice_leaves_two_tasks :
    (Cron.reminderTasks
      (scheduleEventEmail 0 (sampleEvent 7 (.time 1725926400000) false .undefined)
        (scheduleEventEmail 0 (sampleEvent 7 (.time 1719838020000) false .undefined)
          ⟨[]⟩).2).2 7).map (fun task => task.expression) = ["0 7 1 7 *", "0 7 10 9 *"] ∧
    ¬ (Cron.reminderTasks
      (scheduleEventEmail 0 (sampleEvent 7 (.time 1725926400000) false .undefined)
        (scheduleEventEmail 0 (sampleEvent 7 (.time 1719838020000) false .undefined)
          ⟨[]⟩).2).2 7).length = 1 := by
  constructor <;> decide

/-- C4 (amended): `scheduleEventEmail` cancels nothing. Two calls for the same
event id with valid message dates `t1` and then `t2` keep every task that was
live before and add two reminder tasks for that id, in call order: the first
with the rule of `t1`, the second with the rule of the latest date `t2`. -/
theorem scheduleEventEmail_twice_keeps_both (now1 now2 t1 t2 : Int) (e1 e2 : Event) (c : Cron)
    (hid : e1._id = e2._id) (h1 : e1.messagedate = .time t1) (h2 : e2.messagedate = .time t2) :
    (scheduleEventEmail now2 e2 (scheduleEventEmail now1 e1 c).2) =
      (.ok (), ⟨c.tasks ++
        [⟨"0 7 " ++ toString (DateFromTime t1) ++ " " ++ toString (MonthFromTime t1 + 1) ++ " *",
            ⟨.exact 0, .exact 0, .exact 7, .exact (DateFromTime t1),
              .exact (MonthFromTime t1 + 1), .any⟩,
            "Asia/Kathmandu", .sendEmailForEvent e2._id⟩,
          ⟨"0 7 " ++ toString (DateFromTime t2) ++ " " ++ toString (MonthFromTime t2 + 1) ++ " *",
            ⟨.exact 0, .exact 0, .exact 7, .exact (DateFromTime t2),
              .exact (MonthFromTime t2 + 1), .any⟩,
            "Asia/Kathmandu", .sendEmailForEvent e2._id⟩]⟩) ∧
    (Cron.reminderTasks (scheduleEventEmail now2 e2 (scheduleEventEmail now1 e1 c).2).2
        e2._id).length = (Cron.reminderTasks c e2._id).length + 2 := by
  have hc : (scheduleEventEmail now2 e2 (scheduleEventEmail now1 e1 c).2) =
      (.ok (), ⟨c.tasks ++
        [⟨"0 7 " ++ toString (DateFromTime t1) ++ " " ++ toString (MonthFromTime t1 + 1) ++ " *",
            ⟨.exact 0, .exact 0, .exact 7, .exact (DateFromTime t1),
              .exact (MonthFromTime t1 + 1), .any⟩,
            "Asia/Kathmandu", .sendEmailForEvent e2._id⟩,
          ⟨"0 7 " ++ toString (DateFromTime t2) ++ " " ++ toString (MonthFromTime t2 + 1) ++ " *",
            ⟨.exact 0, .exact 0, .exact 7, .exact (DateFromTime t2),
              .exact (MonthFromTime t2 + 1), .any⟩,
            "Asia/Kathmandu", .sendEmailForEvent e2._id⟩]⟩) := by
    rw [scheduleEventEmail_time now1 t1 e1 c h1, scheduleEventEmail_time now2 t2 e2 _ h2, hid]
    simp only [List.append_assoc, List.singleton_append]
  refine ⟨hc, ?_⟩
  rw [hc]
  simp [Cron.reminderTasks, List.filter_append]

theorem scheduleEventEmail_twice_keeps_both_witness :
    (Cron.reminderTasks
      (scheduleEventEmail 5 (sampleEvent 3 (.time 1725926400000) false .undefined)
        (scheduleEventEmail 4 (sampleEvent 3 (.time 1719838020000) false .undefined)
          ⟨[purgeTaskOf 3]⟩).2).2 3).length = (Cron.reminderTasks ⟨[purgeTaskOf 3]⟩ 3).length + 2 :=
  (scheduleEventEmail_twice_keeps_both 4 5 1719838020000 1725926400000
    (sampleEvent 3 (.time 1719838020000) false .undefined)
    (sampleEvent 3 (.time 1725926400000) false .undefined) ⟨[purgeTaskOf 3]⟩ rfl rfl rfl).2

/-- C5 (the code at a failing input): a create request with valid dates is
persisted and answered with 201, the new event (`_id` 7) is in the collection,
and no cron task exists afterwards: `createEvent` never calls
`scheduleEventEmail`, so the new id has no reminder task. -/
theorem createEvent_registers_no_reminder :
    (createEvent 1717200000000 7 (.ok 3) sampleBody ⟨[], ⟨[]⟩⟩).1.status = 201 ∧
    ((createEvent 1717200000000 7 (.ok 3) sampleBody ⟨[], ⟨[]⟩⟩).2.events.map
      (fun e => (e._id, e.messagedate))) = [(7, .time 1719838020000)] ∧
    (createEvent 1717200000000 7 (.ok 3) sampleBody ⟨[], ⟨[]⟩⟩).2.cron = ⟨[]⟩ ∧
    Cron.reminderTasks (createEvent 1717200000000 7 (.ok 3) sampleBody ⟨[], ⟨[]⟩⟩).2.cron 7 =
      [] := by
  refine ⟨?_, ?_, ?_, ?_⟩ <;> decide

/-- C6 (counterexample): archiving the existing event 1 through `deleteEvent`
answers 200 and sets `is_deleted` and `deleted_at`, yet no purge task exists
for that id afterwards. -/
theorem deleteEvent_creates_no_purge_task :
    (deleteEvent 1704067200000 1
      ⟨[sampleEvent 1 (.time 1719838020000) false .undefined], ⟨[]⟩⟩).1 =
      ⟨200, some (sampleEvent 1 (.time 1719838020000) true (.time 1704067200000))⟩ ∧
    ¬ (Cron.purgeTasks (deleteEvent 1704067200000 1
      ⟨[sampleEvent 1 (.time 1719838020000) false .undefined], ⟨[]⟩⟩).2.cron 1).length = 1 := by
  constructor <;> decide

/-- C6 (amended): `deleteEvent` registers no task at all, whatever the id. On
an id that does not exist it answers 404 and changes nothing; on an existing
event it answers 200 with the event, now `is_deleted = true` and
`deleted_at = now`, stored in the collection. The purge task of an archived
event is registered only by the bootstrap in `connect`. -/
theorem deleteEvent_archives_without_task (now : Int) (id : Nat) (app : App) :
    (deleteEvent now id app).2.cron = app.cron ∧
    ((∀ e ∈ app.events, e._id ≠ id) → deleteEvent now id app = (⟨404, none⟩, app)) ∧
    ((∃ e ∈ app.events, e._id = id) →
      ∃ ev, (deleteEvent now id app).1 = ⟨200, some ev⟩ ∧ ev._id = id ∧
        ev.is_deleted = true ∧ ev.deleted_at = .time now ∧
        ev ∈ (deleteEvent now id app).2.events) := by
  refine ⟨?_, ?_, ?_⟩
  · unfold deleteEvent
    split <;> rfl
  · intro h
    unfold deleteEvent
    rw [findByIdAndUpdate_absent id _ app.events h]
  · intro h
    obtain ⟨e, _, hid, h1, h2⟩ := findByIdAndUpdate_present id
      (fun e => { e with is_deleted := true, deleted_at := .time now }) app.events h
    refine ⟨{ e with is_deleted := true, deleted_at := .time now }, ?_, hid, rfl, rfl, ?_⟩
    · unfold deleteEvent
      split
      · rename_i heq
        rw [heq] at h1
        cases h1
      · rename_i ev evs heq
        rw [heq] at h1
        simp only [Option.some.injEq] at h1
        rw [h1]
    · unfold deleteEvent
      split
      · rename_i heq
        rw [heq] at h1
        cases h1
      · rename_i ev evs heq
        rw [heq] at h2
        exact h2

theorem deleteEvent_archives_without_task_witness :
    (deleteEvent 9 4 ⟨[sampleEvent 1 (.time 1719838020000) false .undefined],
      ⟨[purgeTaskOf 2]⟩⟩) =
      (⟨404, none⟩, ⟨[sampleEvent 1 (.time 1719838020000) false .undefined],
        ⟨[purgeTaskOf 2]⟩⟩) :=
  (deleteEvent_archives_without_task 9 4
    ⟨[sampleEvent 1 (.time 1719838020000) false .undefined], ⟨[purgeTaskOf 2]⟩⟩).2.1
      (by decide)

/-- C7 (counterexample): the event 1 has been un-archived (`is_deleted` is
false again) when its purge task fires; the callback deletes it all the same,
so the collection does not stay as it was. -/
theorem purge_callback_deletes_unarchived_event :
    deleteArchivedEvent.callback 1
        [sampleEvent 1 (.time 1719838020000) false (.time 1704067200000),
          sampleEvent 2 (.time 1719838020000) false .undefined] =
      [sampleEvent 2 (.time 1719838020000) false .undefined] ∧
    deleteArchivedEvent.callback 1
        [sampleEvent 1 (.time 1719838020000) false (.time 1704067200000),
          sampleEvent 2 (.time 1719838020000) false .undefined] ≠
      [sampleEvent 1 (.time 1719838020000) false (.time 1704067200000),
        sampleEvent 2 (.time 1719838020000) false .undefined] := by
  constructor <;> decide

/-- C7 (amended): when a purge task fires, its callback leaves the collection
unchanged exactly when the event is absent. An event with that `_id` that
still exists is deleted whether or not it is still archived: one document
fewer, every document with another id kept, and (ids being unique) none with
that id left. -/
theorem purge_callback_ignores_archive_state (id : Nat) (store : List Event) :
    ((∀ e ∈ store, e._id ≠ id) → deleteArchivedEvent.callback id store = store) ∧
    (∀ e ∈ store, e._id = id →
      (deleteArchivedEvent.callback id store).length + 1 = store.length ∧
      deleteArchivedEvent.callback id store ≠ store ∧
      (∀ x ∈ store, x._id ≠ id → x ∈ deleteArchivedEvent.callback id store) ∧
      (∀ x ∈ deleteArchivedEvent.callback id store, x ∈ store) ∧
      ((store.map (fun x => x._id)).Nodup →
        ∀ x ∈ deleteArchivedEvent.callback id store, x._id ≠ id)) := by
  refine ⟨fun h => findByIdAndDelete_absent id store h, ?_⟩
  intro e he hid
  have hlen := findByIdAndDelete_length id store e he hid
  refine ⟨hlen, ?_, fun x hx hne => findByIdAndDelete_keeps id store x hx hne,
    fun x hx => findByIdAndDelete_subset id store x hx,
    fun hnd => findByIdAndDelete_gone id store hnd⟩
  intro heq
  unfold deleteArchivedEvent.callback at heq
  rw [heq] at hlen
  omega

theorem purge_callback_ignores_archive_state_witness :
    deleteArchivedEvent.callback 5 [sampleEvent 1 (.time 1719838020000) true (.time 0)] =
      [sampleEvent 1 (.time 1719838020000) true (.time 0)] :=
  (purge_callback_ignores_archive_state 5
    [sampleEvent 1 (.time 1719838020000) true (.time 0)]).1 (by decide)

/-- C8: when the bootstrap `connect` reaches the database, every archived
event of the collection (`is_deleted = true` and a `deleted_at` field) gets a
live purge task, whether or not its purge instant `deleted_at + 30 days`
already lies in the past at start-up. The task matches the start of every
minute, so from any instant on it fires within the next 60 seconds, and its
callback then removes the event from the collection. -/
theorem connect_registers_prompt_purge (now : Int) (events : List Event) (c : Cron) (e : Event)
    (he : e ∈ events) (harch : e.is_deleted = true) (hdel : e.deleted_at ≠ .undefined) :
    ∃ task ∈ (connect now (some events) c).tasks,
      task.action = .findByIdAndDelete e._id ∧
      task.expression = "* * * * *" ∧
      task.timezone = "Asia/Kathmandu" ∧
      (∀ u : Int, task.firesAt u = true ↔ SecFromTime u = 0) ∧
      (∀ t0 : Int, ∃ u : Int, t0 < u ∧ u ≤ t0 + msPerMinute ∧ task.firesAt u = true) ∧
      (∀ store : List Event, e ∈ store →
        (deleteArchivedEvent.callback e._id store).length + 1 = store.length ∧
        ((store.map (fun x => x._id)).Nodup → e ∉ deleteArchivedEvent.callback e._id store)) := by
  have hmem : e ∈ archivedEvents events := by
    simp only [archivedEvents, List.mem_filter, Bool.and_eq_true, decide_eq_true_eq]
    exact ⟨he, harch, hdel⟩
  obtain ⟨ts, hts⟩ := forEachEvent_scheduleEventEmail now events c
  have hconn : (connect now (some events) c).tasks =
      (c.tasks ++ ts) ++ (archivedEvents events).map (fun x => purgeTaskOf x._id) := by
    simp only [connect, hts, forEachEvent_deleteArchivedEvent]
  refine ⟨purgeTaskOf e._id, ?_, rfl, rfl, rfl, firesAt_purgeTaskOf e._id, ?_, ?_⟩
  · rw [hconn]
    exact List.mem_append_right _ (List.mem_map.mpr ⟨e, hmem, rfl⟩)
  · intro t0
    refine ⟨(t0 / msPerMinute + 1) * msPerMinute, ?_, ?_, ?_⟩
    · simp only [msPerMinute]; omega
    · simp only [msPerMinute]; omega
    · rw [firesAt_purgeTaskOf]
      simp only [SecFromTime, msPerMinute, msPerSecond]
      omega
  · intro store hs
    refine ⟨findByIdAndDelete_length e._id store e hs rfl, ?_⟩
    intro hnd hin
    exact findByIdAndDelete_gone e._id store hnd e hin rfl

theorem connect_registers_prompt_purge_witness :
    (1700611200000 : Int) + 30 * msPerDay < 1704067200000 ∧
    ∃ task ∈ (connect 1704067200000
        (some [sampleEvent 1 (.time 1719838020000) false .undefined,
          sampleEvent 2 (.time 1719838020000) true (.time 1700611200000)]) ⟨[]⟩).tasks,
      task.action = .findByIdAndDelete 2 ∧ task.expression = "* * * * *" := by
  obtain ⟨task, h1, h2, h3, _⟩ := connect_registers_prompt_purge 1704067200000
    [sampleEvent 1 (.time 1719838020000) false .undefined,
      sampleEvent 2 (.time 1719838020000) true (.time 1700611200000)] ⟨[]⟩
    (sampleEvent 2 (.time 1719838020000) true (.time 1700611200000))
    (by decide) rfl (by decide)
  exact ⟨by decide, task, h1, h2, h3⟩

/-- C9 (counterexample): for an event whose `messagedate` is `undefined`,
`moment.utc` reads the clock, so at 2024-01-01T00:00:00Z a task with the
pattern `0 7 1 1 *` is registered instead of none. -/
theorem scheduleEventEmail_undefined_registers_task :
    scheduleEventEmail 1704067200000 (sampleEvent 1 .undefined false .undefined) ⟨[]⟩ =
      (.ok (), ⟨[⟨"0 7 1 1 *", ⟨.exact 0, .exact 0, .exact 7, .exact 1, .exact 1, .any⟩,
        "Asia/Kathmandu", .sendEmailForEvent 1⟩]⟩) ∧
    (scheduleEventEmail 1704067200000 (sampleEvent 1 .undefined false .undefined) ⟨[]⟩).2 ≠
      ⟨[]⟩ := by
  refine ⟨rfl, ?_⟩
  decide

/-- C9 (amended): `scheduleEventEmail` always returns normally. For an event
whose `messagedate` is `null` or malformed the derived pattern is
`0 7 NaN NaN *`, the timer source rejects it by throwing, the error is caught
and no task is registered. For an event whose `messagedate` is `undefined` the
call registers the task of the current instant `now`. -/
theorem scheduleEventEmail_contains_errors (now : Int) (event : Event) (c : Cron) :
    (scheduleEventEmail now event c).1 = .ok () ∧
    (event.messagedate = .null ∨ event.messagedate = .invalid →
      scheduleEventEmail now event c = (.ok (), c) ∧
      (cron.schedule "0 7 NaN NaN *" (.sendEmailForEvent event._id) "Asia/Kathmandu" c).1 =
        .error "0 7 NaN NaN * is a invalid expression" ∧
      (cron.schedule "0 7 NaN NaN *" (.sendEmailForEvent event._id) "Asia/Kathmandu" c).2 = c) ∧
    (event.messagedate = .undefined →
      scheduleEventEmail now event c =
        (.ok (), ⟨c.tasks ++
          [⟨"0 7 " ++ toString (DateFromTime now) ++ " " ++ toString (MonthFromTime now + 1) ++
              " *",
            ⟨.exact 0, .exact 0, .exact 7, .exact (DateFromTime now),
              .exact (MonthFromTime now + 1), .any⟩,
            "Asia/Kathmandu", .sendEmailForEvent event._id⟩]⟩)) := by
  refine ⟨?_, ?_, ?_⟩
  · obtain ⟨ts, hts⟩ := scheduleEventEmail_appends now event c
    rw [hts]
  · intro h
    refine ⟨?_, ?_, ?_⟩
    · apply scheduleEventEmail_invalid
      rcases h with h | h <;> rw [h] <;> rfl
    · simp only [cron.schedule, parsePattern_nan]
      rfl
    · simp only [cron.schedule, parsePattern_nan]
  · intro h
    exact scheduleEventEmail_valid now now event c (by rw [h]; rfl)

theorem scheduleEventEmail_contains_errors_witness :
    scheduleEventEmail 0 (sampleEvent 1 .null false .undefined) ⟨[purgeTaskOf 2]⟩ =
      (.ok (), ⟨[purgeTaskOf 2]⟩) :=
  ((scheduleEventEmail_contains_errors 0 (sampleEvent 1 .null false .undefined)
    ⟨[purgeTaskOf 2]⟩).2.1 (Or.inl rfl)).1

/-- C10: for every event whose `messagedate` falls on 29 February (UTC),
`scheduleEventEmail` returns normally and registers the task with the pattern
`0 7 29 2 *`, day and month unclamped. The task fires only at instants whose
Nepal date is 29 February of a leap year: never in a year that is not a leap
year, never on 28 February or 1 March; and it fires at 07:00 Nepal time on
29 February of every leap year. -/
theorem scheduleEventEmail_leap_day (now t : Int) (event : Event) (c : Cron)
    (h : event.messagedate = .time t) (hm : MonthFromTime t = 1) (hd : DateFromTime t = 29) :
    ∃ task : ScheduledTask,
      scheduleEventEmail now event c = (.ok (), ⟨c.tasks ++ [task]⟩) ∧
      task.expression = "0 7 29 2 *" ∧
      task.rule = ⟨.exact 0, .exact 0, .exact 7, .exact 29, .exact 2, .any⟩ ∧
      (∀ u : Int, task.firesAt u = true →
        isLeapYear (YearFromTime (u + 20700000)) = true ∧
        MonthFromTime (u + 20700000) = 1 ∧ DateFromTime (u + 20700000) = 29) ∧
      (∀ u : Int, isLeapYear (YearFromTime (u + 20700000)) = false → task.firesAt u = false) ∧
      (∀ u : Int,
        (MonthFromTime (u + 20700000) = 1 ∧ DateFromTime (u + 20700000) = 28) ∨
          (MonthFromTime (u + 20700000) = 2 ∧ DateFromTime (u + 20700000) = 1) →
        task.firesAt u = false) ∧
      (∀ y : Int, isLeapYear y = true →
        YearFromTime (MakeDate (MakeDay y 1 29) (7 * msPerHour)) = y ∧
        MonthFromTime (MakeDate (MakeDay y 1 29) (7 * msPerHour)) = 1 ∧
        DateFromTime (MakeDate (MakeDay y 1 29) (7 * msPerHour)) = 29 ∧
        task.firesAt (MakeDate (MakeDay y 1 29) (7 * msPerHour) - 20700000) = true) := by
  have hreg := scheduleEventEmail_time now t event c h
  rw [hm, hd] at hreg
  have hfire := firesAt_reminder "0 7 29 2 *" 29 2 (.sendEmailForEvent event._id)
  have hexp : "0 7 " ++ toString (29 : Int) ++ " " ++ toString ((1 : Int) + 1) ++ " *" =
      "0 7 29 2 *" := by decide
  have hone : ((1 : Int) + 1) = 2 := rfl
  rw [hexp, hone] at hreg
  have honly : ∀ u : Int,
      ScheduledTask.firesAt ⟨"0 7 29 2 *", ⟨.exact 0, .exact 0, .exact 7, .exact 29, .exact 2,
        .any⟩, "Asia/Kathmandu", .sendEmailForEvent event._id⟩ u = true →
      isLeapYear (YearFromTime (u + 20700000)) = true ∧
        MonthFromTime (u + 20700000) = 1 ∧ DateFromTime (u + 20700000) = 29 := by
    intro u hu
    obtain ⟨_, _, _, h4, h5⟩ := (hfire u).mp hu
    have h6 : MonthFromTime (u + 20700000) = 1 := by omega
    exact ⟨leap_of_feb29 _ h6 h4, h6, h4⟩
  refine ⟨_, hreg, rfl, rfl, honly, ?_, ?_, ?_⟩
  · intro u hu
    by_contra hne
    have hf := (honly u (by simpa using hne)).1
    rw [hu] at hf
    exact Bool.false_ne_true hf
  · intro u hu
    by_contra hne
    obtain ⟨_, h2, h3⟩ := honly u (by simpa using hne)
    omega
  · intro y hy
    have hdim : (29 : Int) ≤ daysInMonth y 1 := by
      rcases DaysInYear_cases y with ⟨_, hn⟩ | ⟨hl, _⟩
      · simp only [daysInMonth_table, hn]
        omega
      · rw [hy] at hl
        exact absurd hl (by decide)
    obtain ⟨f1, f2, f3⟩ := fields_of_MakeDay y 1 29 (7 * msPerHour) (by decide) (by decide)
      (by decide) hdim (by decide) (by decide)
    refine ⟨f1, f2, f3, ?_⟩
    rw [hfire]
    have hsub : MakeDate (MakeDay y 1 29) (7 * msPerHour) - 20700000 + 20700000 =
        MakeDate (MakeDay y 1 29) (7 * msPerHour) := by omega
    rw [hsub]
    refine ⟨?_, ?_, ?_, f3, by omega⟩
    · simp only [SecFromTime, MakeDate, msPerDay, msPerHour, msPerSecond]
      omega
    · simp only [MinFromTime, MakeDate, msPerDay, msPerHour, msPerMinute]
      omega
    · simp only [HourFromTime, MakeDate, msPerDay, msPerHour]
      omega

theorem scheduleEventEmail_leap_day_witness :
    ∃ task : ScheduledTask,
      scheduleEventEmail 0 (sampleEvent 1 (.time 1709164800000) false .undefined) ⟨[]⟩ =
        (.ok (), ⟨[] ++ [task]⟩) ∧
      task.expression = "0 7 29 2 *" := by
  obtain ⟨task, h1, h2, _⟩ := scheduleEventEmail_leap_day 0 1709164800000
    (sampleEvent 1 (.time 1709164800000) false .undefined) ⟨[]⟩ rfl (by decide) (by decide)
  exact ⟨task, h1, h2⟩

/-! ## Lemmas on the local date -/

theorem YearFromTime_congr (a b : Int) (h : Day a = Day b) : YearFromTime a = YearFromTime b := by
  unfold YearFromTime
  rw [h]

theorem DayWithinYear_congr (a b : Int) (h : Day a = Day b) :
    DayWithinYear a = DayWithinYear b := by
  unfold DayWithinYear
  rw [h, YearFromTime_congr a b h]

theorem InLeapYear_congr (a b : Int) (h : Day a = Day b) : InLeapYear a = InLeapYear b := by
  unfold InLeapYear
  rw [YearFromTime_congr a b h]

theorem MonthFromTime_congr (a b : Int) (h : Day a = Day b) :
    MonthFromTime a = MonthFromTime b := by
  unfold MonthFromTime
  rw [DayWithinYear_congr a b h, InLeapYear_congr a b h]

theorem DateFromTime_congr (a b : Int) (h : Day a = Day b) :
    DateFromTime a = DateFromTime b := by
  unfold DateFromTime
  rw [DayWithinYear_congr a b h, YearFromTime_congr a b h, MonthFromTime_congr a b h]

/-- The year of the next day is the same year or the next one. -/
theorem YearFromTime_next_day (a b : Int) (h : Day b = Day a + 1) :
    YearFromTime b = YearFromTime a ∨
      (YearFromTime b = YearFromTime a + 1 ∧ DayWithinYear b = 0 ∧
        DayWithinYear a = DaysInYear (YearFromTime a) - 1) := by
  obtain ⟨a1, a2⟩ := YearFromDay_spec (Day a)
  obtain ⟨b1, b2⟩ := YearFromDay_spec (Day b)
  have hs := DayFromYear_succ (YearFromDay (Day a))
  have hs2 := DayFromYear_succ (YearFromDay (Day a) + 1)
  have hn : DaysInYear (YearFromDay (Day a) + 1) = 365 ∨
      DaysInYear (YearFromDay (Day a) + 1) = 366 := by
    rcases DaysInYear_cases (YearFromDay (Day a) + 1) with h | h <;> omega
  have hlo : YearFromDay (Day a) ≤ YearFromDay (Day b) := by
    by_contra hc
    have := DayFromYear_mono (YearFromDay (Day b) + 1) (YearFromDay (Day a)) (by omega)
    omega
  have hhi : YearFromDay (Day b) ≤ YearFromDay (Day a) + 1 := by
    by_contra hc
    have := DayFromYear_mono (YearFromDay (Day a) + 1 + 1) (YearFromDay (Day b)) (by omega)
    omega
  rcases (by omega : YearFromDay (Day b) = YearFromDay (Day a) ∨
      YearFromDay (Day b) = YearFromDay (Day a) + 1) with he | he
  · exact Or.inl he
  · refine Or.inr ⟨he, ?_, ?_⟩
    · unfold DayWithinYear YearFromTime
      rw [he] at b1 ⊢
      omega
    · unfold DayWithinYear YearFromTime
      rw [he] at b1
      omega

/-- Two consecutive days never carry the same day of the month. -/
theorem DateFromTime_next_day_ne (a b : Int) (h : Day b = Day a + 1) :
    DateFromTime b ≠ DateFromTime a := by
  obtain ⟨ma0, ma1, sa1, sa2⟩ := MonthFromTime_spec a
  obtain ⟨mb0, mb1, sb1, sb2⟩ := MonthFromTime_spec b
  have hna : DaysInYear (YearFromTime a) = 365 ∨ DaysInYear (YearFromTime a) = 366 := by
    rcases DaysInYear_cases (YearFromTime a) with h | h <;> omega
  have hnb : DaysInYear (YearFromTime b) = 365 ∨ DaysInYear (YearFromTime b) = 366 := by
    rcases DaysInYear_cases (YearFromTime b) with h | h <;> omega
  unfold DateFromTime
  rcases YearFromTime_next_day a b h with hy | ⟨hy, hb0, ha0⟩
  · have hd : DayWithinYear b = DayWithinYear a + 1 := by
      unfold DayWithinYear
      rw [hy, h]
      omega
    rw [hy] at sb1 sb2 hnb ⊢
    rw [hd] at sb1 sb2 ⊢
    generalize MonthFromTime a = ma at *
    generalize MonthFromTime b = mb at *
    generalize DayWithinYear a = d at *
    clear hy hd h
    interval_cases ma <;> interval_cases mb <;>
      simp only [daysBeforeMonth_table, daysInMonth_table] at sa1 sa2 sb1 sb2 ⊢ <;> omega
  · rw [hb0] at sb1 sb2 ⊢
    rw [ha0] at sa1 sa2 ⊢
    generalize MonthFromTime a = ma at *
    generalize MonthFromTime b = mb at *
    clear hy hb0 ha0 h
    interval_cases ma <;> interval_cases mb <;>
      simp only [daysBeforeMonth_table, daysInMonth_table] at sa1 sa2 sb1 sb2 ⊢ <;> omega

theorem Event.create_messagedate (newId : Nat) (allday : Bool) (eventtime name : Option String)
    (invites : List Nat) (md ed : DateValue) (message : Nat) (ev : Event)
    (h : Event.create newId allday eventtime name invites md ed message = .ok ev) :
    ev.messagedate = md := by
  unfold Event.create at h
  split at h
  · rename_i n md2 ed2
    by_cases hn : n = ""
    · rw [if_pos hn] at h
      cases h
    · rw [if_neg hn] at h
      cases h
      rfl
  · cases h

/-- The event `createEvent` stores carries the instant of the request:
`.tz("Asia/Kathmandu")` does not move it. -/
theorem createEvent_keeps_instant (now t : Int) (newId messageId : Nat) (body : CreateEventBody)
    (app : App) (ev : Event) (hb : body.messagedate = .time t)
    (hr : (createEvent now newId (.ok messageId) body app).1.event = some ev) :
    ev.messagedate = .time t := by
  unfold createEvent at hr
  rw [hb] at hr
  cases hcr : Event.create newId body.allday body.eventtime body.name body.invites
      (moment.utc now (.time t)).toDate (moment.utc now body.eventdate).toDate messageId with
  | error err =>
    simp only [hcr] at hr
    cases hr
  | ok event =>
    simp only [hcr, Option.some.injEq] at hr
    rw [← hr]
    exact Event.create_messagedate _ _ _ _ _ _ _ _ _ hcr

/-- A create request with a name and valid dates is stored with the instant of
its `messagedate` and answered with 201. -/
theorem createEvent_stores_instant (now t : Int) (newId messageId : Nat) (body : CreateEventBody)
    (app : App) (n : String) (ed : Int) (hb : body.messagedate = .time t)
    (hn : body.name = some n) (hne : n ≠ "") (he : body.eventdate = .time ed) :
    ∃ ev : Event,
      createEvent now newId (.ok messageId) body app =
        (⟨201, some ev⟩, { app with events := app.events ++ [ev] }) ∧
      ev._id = newId ∧ ev.messagedate = .time t := by
  refine ⟨Event.mk newId body.allday body.eventtime n body.invites (.time t) (.time ed)
    (some messageId) false .undefined, ?_, rfl, rfl⟩
  unfold createEvent
  rw [hb, he]
  simp only [moment.utc, Moment.toDate, Event.create, hn, hne, if_false]

/-! ## Lemmas on pagination -/

theorem dropLast_page (L : List Event) (n : Nat) (hn : 1 ≤ n) (hlen : L.length = n + 1) :
    L.dropLast = L.take n ∧
    ∃ last, L.dropLast.getLast? = some last ∧ L[n - 1]? = some last := by
  have h1 : L.dropLast = L.take n := by
    rw [List.dropLast_eq_take, hlen, Nat.add_sub_cancel]
  refine ⟨h1, ?_⟩
  have hlt : n - 1 < L.length := by omega
  refine ⟨L[n - 1], ?_, List.getElem?_eq_getElem hlt⟩
  rw [h1, List.getLast?_eq_getElem?, List.length_take, Nat.min_eq_left (by omega),
    List.getElem?_take_of_lt (by omega), List.getElem?_eq_getElem hlt]

/-- The page a handler answers with, for a page size `p ≥ 1` and a query
result `L` of at most `p + 1` events. -/
theorem scheduleEvent_eq (limit : Option String) (find : Int → List Event)
    (hp : 1 ≤ perPageOf limit)
    (hL : ((find (perPageOf limit + 1)).length : Int) ≤ perPageOf limit + 1) :
    scheduleEvent limit find =
      .ok ⟨true, (find (perPageOf limit + 1)).take (perPageOf limit).toNat,
        if (perPageOf limit) < ((find (perPageOf limit + 1)).length : Int) then
          ((find (perPageOf limit + 1))[(perPageOf limit).toNat - 1]?).map (fun e => e._id)
        else none⟩ := by
  generalize hpe : perPageOf limit = p at *
  generalize hLe : find (p + 1) = L at *
  obtain ⟨n, rfl⟩ : ∃ n : Nat, p = (n : Int) := ⟨p.toNat, by omega⟩
  have hn : 1 ≤ n := by omega
  have hlen : L.length ≤ n + 1 := by omega
  unfold scheduleEvent
  simp only [hpe, hLe, Int.toNat_ofNat]
  by_cases hnext : (n : Int) < (L.length : Int)
  · have hlen2 : L.length = n + 1 := by omega
    obtain ⟨h1, last, h2, h3⟩ := dropLast_page L n hn hlen2
    rw [h1] at h2
    simp only [hnext, decide_True, if_true, h2, h1, h3, Option.map_some']
  · have hlen2 : L.length ≤ n := by omega
    simp only [hnext, decide_False, if_false, Bool.false_eq_true, List.take_of_length_le hlen2]

theorem pastEvent_eq_scheduleEvent (limit : Option String) (find : Int → List Event) :
    pastEvent limit find = scheduleEvent limit find := rfl

/-! ## Lemmas on the ISO date text -/

theorem digitChar_fin_inj : ∀ i j : Fin 10, Char.ofNat (48 + i.val) = Char.ofNat (48 + j.val) →
    i = j := by
  decide

theorem digitChar_inj (a b : Int) (h : digitChar a = digitChar b) : a % 10 = b % 10 := by
  unfold digitChar at h
  have ha : (a % 10).toNat < 10 := by omega
  have hb : (b % 10).toNat < 10 := by omega
  have := digitChar_fin_inj ⟨(a % 10).toNat, ha⟩ ⟨(b % 10).toNat, hb⟩ h
  have h2 : (a % 10).toNat = (b % 10).toNat := congrArg Fin.val this
  omega

theorem digitChar_ne_sign : ∀ i : Fin 10, Char.ofNat (48 + i.val) ≠ '-' ∧
    Char.ofNat (48 + i.val) ≠ '+' := by
  decide

theorem digitChar_ne_minus (a : Int) : digitChar a ≠ '-' ∧ digitChar a ≠ '+' := by
  unfold digitChar
  have ha : (a % 10).toNat < 10 := by omega
  exact digitChar_ne_sign ⟨(a % 10).toNat, ha⟩

/-- The years of the time values a `Date` can hold. -/
theorem YearFromTime_range (t : Int) (h : TimeClip t = some t) :
    -271822 ≤ YearFromTime t ∧ YearFromTime t ≤ 275761 := by
  have hb : -8640000000000000 ≤ t ∧ t ≤ 8640000000000000 := by
    unfold TimeClip at h
    by_contra hc
    rw [if_neg hc] at h
    cases h
  obtain ⟨h1, h2⟩ := YearFromDay_spec (Day t)
  unfold YearFromTime
  generalize YearFromDay (Day t) = y at *
  simp only [DayFromYear, Day, msPerDay] at h1 h2
  omega

theorem isoYearChars_inj (y z : Int) (hy : -999999 ≤ y ∧ y ≤ 999999)
    (hz : -999999 ≤ z ∧ z ≤ 999999) (tl tl2 : List Char)
    (h : isoYearChars y ++ tl = isoYearChars z ++ tl2) (hl : tl.length = tl2.length) :
    y = z ∧ tl = tl2 := by
  have hlen := congrArg List.length h
  unfold isoYearChars at h hlen
  by_cases hy1 : 0 ≤ y ∧ y ≤ 9999 <;> by_cases hz1 : 0 ≤ z ∧ z ≤ 9999
  · rw [if_pos hy1, if_pos hz1] at h
    simp only [List.cons_append, List.nil_append, List.cons.injEq] at h
    obtain ⟨h1, h2, h3, h4, h5⟩ := h
    have := digitChar_inj _ _ h1
    have := digitChar_inj _ _ h2
    have := digitChar_inj _ _ h3
    have := digitChar_inj _ _ h4
    exact ⟨by omega, h5⟩
  · rw [if_pos hy1, if_neg hz1] at hlen
    by_cases hz2 : z < 0
    · rw [if_pos hz2] at hlen
      simp only [List.length_append, List.length_cons, List.length_nil] at hlen
      omega
    · rw [if_neg hz2] at hlen
      simp only [List.length_append, List.length_cons, List.length_nil] at hlen
      omega
  · rw [if_neg hy1, if_pos hz1] at hlen
    by_cases hy2 : y < 0
    · rw [if_pos hy2] at hlen
      simp only [List.length_append, List.length_cons, List.length_nil] at hlen
      omega
    · rw [if_neg hy2] at hlen
      simp only [List.length_append, List.length_cons, List.length_nil] at hlen
      omega
  · rw [if_neg hy1, if_neg hz1] at h
    by_cases hy2 : y < 0 <;> by_cases hz2 : z < 0
    · rw [if_pos hy2, if_pos hz2] at h
      simp only [List.cons_append, List.nil_append, List.cons.injEq, true_and] at h
      obtain ⟨h1, h2, h3, h4, h5, h6, h7⟩ := h
      have := digitChar_inj _ _ h1
      have := digitChar_inj _ _ h2
      have := digitChar_inj _ _ h3
      have := digitChar_inj _ _ h4
      have := digitChar_inj _ _ h5
      have := digitChar_inj _ _ h6
      exact ⟨by omega, h7⟩
    · rw [if_pos hy2, if_neg hz2] at h
      simp only [List.cons_append, List.nil_append, List.cons.injEq] at h
      exact absurd h.1 (by decide)
    · rw [if_neg hy2, if_pos hz2] at h
      simp only [List.cons_append, List.nil_append, List.cons.injEq] at h
      exact absurd h.1 (by decide)
    · rw [if_neg hy2, if_neg hz2] at h
      simp only [List.cons_append, List.nil_append, List.cons.injEq, true_and] at h
      obtain ⟨h1, h2, h3, h4, h5, h6, h7⟩ := h
      have := digitChar_inj _ _ h1
      have := digitChar_inj _ _ h2
      have := digitChar_inj _ _ h3
      have := digitChar_inj _ _ h4
      have := digitChar_inj _ _ h5
      have := digitChar_inj _ _ h6
      exact ⟨by omega, h7⟩

theorem toISODate_congr (a b : Int) (h : Day a = Day b) : toISODate a = toISODate b := by
  unfold toISODate
  rw [YearFromTime_congr a b h, MonthFromTime_congr a b h, DateFromTime_congr a b h]

/-- Two representable time values have the same ISO date text exactly when
they fall on the same UTC day. -/
theorem toISODate_eq_iff (a b : Int) (ha : TimeClip a = some a) (hb : TimeClip b = some b) :
    toISODate a = toISODate b ↔ Day a = Day b := by
  refine ⟨?_, toISODate_congr a b⟩
  intro h
  obtain ⟨ya0, ya1⟩ := YearFromTime_range a ha
  obtain ⟨yb0, yb1⟩ := YearFromTime_range b hb
  obtain ⟨ma0, ma1⟩ := MonthFromTime_range a
  obtain ⟨mb0, mb1⟩ := MonthFromTime_range b
  obtain ⟨da0, da1⟩ := DateFromTime_range a
  obtain ⟨db0, db1⟩ := DateFromTime_range b
  have da2 := (daysInMonth_le (YearFromTime a) (MonthFromTime a) ma0 ma1).2
  have db2 := (daysInMonth_le (YearFromTime b) (MonthFromTime b) mb0 mb1).2
  unfold toISODate at h
  have h2 := congrArg String.data h
  obtain ⟨hy, htl⟩ := isoYearChars_inj (YearFromTime a) (YearFromTime b)
    ⟨by omega, by omega⟩ ⟨by omega, by omega⟩ _ _ h2 rfl
  simp only [List.cons.injEq, true_and, and_true] at htl
  obtain ⟨m1, m2, d1, d2⟩ := htl
  have := digitChar_inj _ _ m1
  have := digitChar_inj _ _ m2
  have := digitChar_inj _ _ d1
  have := digitChar_inj _ _ d2
  have hm : MonthFromTime a = MonthFromTime b := by omega
  have hd : DateFromTime a = DateFromTime b := by omega
  have e1 := MakeDay_fields a 0
  have e2 := MakeDay_fields b 0
  rw [hy, hm, hd, e2] at e1
  omega

/-! ## Lemmas on the grouping -/

theorem mem_distinctInOrder (ks : List String) (k : String) :
    k ∈ distinctInOrder ks ↔ k ∈ ks := by
  induction ks with
  | nil => simp [distinctInOrder]
  | cons x xs ih =>
    simp only [distinctInOrder, List.mem_cons, List.mem_filter, ih, decide_eq_true_eq]
    constructor
    · rintro (h | ⟨h, _⟩)
      · exact Or.inl h
      · exact Or.inr h
    · intro h
      by_cases hx : k = x
      · exact Or.inl hx
      · rcases h with h | h
        · exact absurd h hx
        · exact Or.inr ⟨h, hx⟩

theorem nodup_distinctInOrder (ks : List String) : (distinctInOrder ks).Nodup := by
  induction ks with
  | nil => simp [distinctInOrder]
  | cons x xs ih =>
    simp only [distinctInOrder, List.nodup_cons, List.mem_filter, decide_eq_true_eq]
    exact ⟨fun h => h.2 rfl, ih.filter _⟩

theorem distinctInOrder_append (ks : List String) (k : String) :
    distinctInOrder (ks ++ [k]) =
      if k ∈ ks then distinctInOrder ks else distinctInOrder ks ++ [k] := by
  induction ks with
  | nil => simp [distinctInOrder]
  | cons x xs ih =>
    have hstep : distinctInOrder (x :: xs ++ [k]) =
        x :: (distinctInOrder (xs ++ [k])).filter (fun y => decide (y ≠ x)) := rfl
    have hcons : distinctInOrder (x :: xs) =
        x :: (distinctInOrder xs).filter (fun y => decide (y ≠ x)) := rfl
    rw [hstep, ih, hcons]
    by_cases hk : k ∈ xs
    · rw [if_pos hk, if_pos (List.mem_cons_of_mem _ hk)]
    · rw [if_neg hk, List.filter_append]
      by_cases hx : k = x
      · subst hx
        rw [if_pos (List.mem_cons_self _ _)]
        simp
      · have hmem : ¬ k ∈ x :: xs := by
          intro h
          rcases List.mem_cons.mp h with h | h
          · exact hx h
          · exact hk h
        rw [if_neg hmem]
        simp [hx]

/-- The distinct texts come in the order in which they first occur. -/
theorem distinctInOrder_pairwise (ks : List String) :
    (distinctInOrder ks).Pairwise (fun a b => ks.indexOf a < ks.indexOf b) := by
  induction ks with
  | nil => simp [distinctInOrder]
  | cons x xs ih =>
    simp only [distinctInOrder, List.pairwise_cons, List.mem_filter, decide_eq_true_eq]
    refine ⟨?_, ?_⟩
    · rintro b ⟨_, hb⟩
      rw [List.indexOf_cons_self, List.indexOf_cons_ne _ (Ne.symm hb)]
      exact Nat.succ_pos _
    · refine (ih.filter _).imp_of_mem ?_
      intro a b ha hb hab
      simp only [List.mem_filter, decide_eq_true_eq] at ha hb
      rw [List.indexOf_cons_ne _ (Ne.symm ha.2), List.indexOf_cons_ne _ (Ne.symm hb.2)]
      exact Nat.succ_lt_succ hab

theorem pushGrouped_map (ks : List String) (f : String → List Event) (k : String) (e : Event)
    (hnd : ks.Nodup) :
    pushGrouped (ks.map (fun x => (x, f x))) k e =
      if k ∈ ks then ks.map (fun x => (x, if x = k then f x ++ [e] else f x))
      else ks.map (fun x => (x, f x)) ++ [(k, [e])] := by
  induction ks with
  | nil => simp [pushGrouped]
  | cons x xs ih =>
    rw [List.nodup_cons] at hnd
    by_cases hx : x = k
    · subst hx
      have hrest : xs.map (fun y => (y, if y = x then f y ++ [e] else f y)) =
          xs.map (fun y => (y, f y)) := by
        apply List.map_congr_left
        intro y hy
        have hne : y ≠ x := fun h => hnd.1 (h ▸ hy)
        simp only [hne, if_false]
      simp only [List.map_cons, pushGrouped, if_true, List.mem_cons, true_or, hrest]
    · have hk : k ≠ x := fun h => hx h.symm
      simp only [List.map_cons, pushGrouped, hx, if_false, ih hnd.2, List.mem_cons, hk,
        false_or]
      by_cases hm : k ∈ xs
      · simp only [hm, if_true]
      · simp only [hm, if_false, List.cons_append]

theorem pushGrouped_spec (pre : List Event) (e : Event) :
    pushGrouped (groupedByDateSpec pre) e.isoDate e = groupedByDateSpec (pre ++ [e]) := by
  unfold groupedByDateSpec
  rw [pushGrouped_map _ _ _ _ (nodup_distinctInOrder _), List.map_append, List.map_cons,
    List.map_nil, distinctInOrder_append]
  by_cases hk : e.isoDate ∈ List.map Event.isoDate pre
  · have hk2 : e.isoDate ∈ distinctInOrder (List.map Event.isoDate pre) :=
      (mem_distinctInOrder _ _).mpr hk
    rw [if_pos hk2, if_pos hk]
    apply List.map_congr_left
    intro x _
    by_cases hx : x = e.isoDate
    · subst hx
      simp [List.filter_append]
    · have hx2 : ¬ e.isoDate = x := fun h => hx h.symm
      simp [List.filter_append, hx, hx2]
  · have hk2 : ¬ e.isoDate ∈ distinctInOrder (List.map Event.isoDate pre) :=
      fun h => hk ((mem_distinctInOrder _ _).mp h)
    rw [if_neg hk2, if_neg hk, List.map_append]
    congr 1
    · apply List.map_congr_left
      intro x hxm
      have hx2 : ¬ e.isoDate = x := fun h => hk2 (h ▸ hxm)
      simp [List.filter_append, hx2]
    · have hnone : pre.filter (fun a => decide (a.isoDate = e.isoDate)) = [] := by
        rw [List.filter_eq_nil_iff]
        intro a ha
        simp only [decide_eq_true_eq]
        intro h
        exact hk (List.mem_map.mpr ⟨a, ha, h⟩)
      simp [List.filter_append, hnone]

theorem eventDateKey_time (e : Event) (t : Int) (h : e.eventdate = .time t) :
    eventDateKey e.eventdate = .ok e.isoDate := by
  unfold Event.isoDate
  rw [h]
  rfl

/-- The reducer computes the grouping of the specification. -/
theorem groupedEvents_spec (es pre : List Event) (h : ∀ e ∈ es, ∃ t, e.eventdate = .time t) :
    groupedEvents es (groupedByDateSpec pre) = .ok (groupedByDateSpec (pre ++ es)) := by
  induction es generalizing pre with
  | nil => simp [groupedEvents]
  | cons e es ih =>
    obtain ⟨t, ht⟩ := h e (List.mem_cons_self _ _)
    have hk := eventDateKey_time e t ht
    unfold groupedEvents
    rw [hk]
    simp only []
    rw [pushGrouped_spec, ih _ (fun x hx => h x (List.mem_cons_of_mem _ hx)), List.append_assoc,
      List.singleton_append]

theorem pushGrouped_total (acc : List (String × List Event)) (k : String) (e : Event) :
    ((pushGrouped acc k e).map (fun p => p.2.length)).sum =
      (acc.map (fun p => p.2.length)).sum + 1 := by
  induction acc with
  | nil => simp [pushGrouped]
  | cons p ps ih =>
    obtain ⟨k2, es⟩ := p
    by_cases hk : k2 = k
    · simp only [pushGrouped, hk, if_true, List.map_cons, List.sum_cons, List.length_append,
        List.length_singleton]
      omega
    · simp only [pushGrouped, hk, if_false, List.map_cons, List.sum_cons, ih]
      omega

theorem groupedByDateSpec_total (es : List Event) :
    ((groupedByDateSpec es).map (fun p => p.2.length)).sum = es.length := by
  induction es using List.reverseRecOn with
  | nil => rfl
  | append_singleton pre e ih =>
    rw [← pushGrouped_spec, pushGrouped_total, ih, List.length_append, List.length_singleton]

/-! ## The claims, continued -/

/-- C11 (counterexample): the `messagedate` 1980-07-01T18:20:00Z has a UTC
time of day after 18:15, and the rule registered for it has day 1 and month 7;
Nepal time was UTC+05:30 then, so its Nepal date is still 1 July (23:50), the
very day of the rule and not the day after it. -/
theorem scheduleEventEmail_rule_day_is_nepal_day_in_1980 :
    18 * msPerHour + 15 * msPerMinute ≤ TimeWithinDay 331323600000 ∧
    (scheduleEventEmail 0 (sampleEvent 1 (.time 331323600000) false .undefined) ⟨[]⟩).2.tasks.map
      (fun task => (task.rule.dayOfMonth, task.rule.month)) = [(.exact 1, .exact 7)] ∧
    kathmanduOffsetAt 331323600000 = 19800000 ∧
    Day (331323600000 + kathmanduOffsetAt 331323600000) = Day 331323600000 ∧
    MonthFromTime (331323600000 + kathmanduOffsetAt 331323600000) + 1 = 7 ∧
    DateFromTime (331323600000 + kathmanduOffsetAt 331323600000) = 1 ∧
    HourFromTime (331323600000 + kathmanduOffsetAt 331323600000) = 23 ∧
    MinFromTime (331323600000 + kathmanduOffsetAt 331323600000) = 50 := by
  refine ⟨?_, ?_, ?_, ?_, ?_, ?_, ?_, ?_⟩ <;> decide

/-- C11 (amended): the day and month of the reminder rule are the UTC day and
month of `messagedate`, which `createEvent` stores as the instant it parsed,
while the rule fires in Nepal time. For a `messagedate` from
1985-12-31T18:30:00Z on (Nepal time UTC+05:45): when its UTC time of day is
18:15 or later its Nepal date is the next calendar day, so the day of the month
in the rule is that of the day before the Nepal date and differs from the
Nepal day of the month; for an earlier UTC time of day the Nepal date is the
UTC date, and day and month coincide. For a `messagedate` between
1919-12-31T18:18:44Z and 1985-12-31T18:30:00Z (Nepal time UTC+05:30) the same
holds with 18:30 in place of 18:15. -/
theorem scheduleEventEmail_rule_uses_utc_date (now t : Int) (event : Event) (c : Cron)
    (h : event.messagedate = .time t) :
    (∀ (newId messageId : Nat) (body : CreateEventBody) (app : App) (ev : Event),
      body.messagedate = .time t →
      (createEvent now newId (.ok messageId) body app).1.event = some ev →
      ev.messagedate = .time t) ∧
    (∀ (newId messageId : Nat) (body : CreateEventBody) (app : App) (n : String) (ed : Int),
      body.messagedate = .time t → body.name = some n → n ≠ "" → body.eventdate = .time ed →
      ∃ ev : Event,
        createEvent now newId (.ok messageId) body app =
          (⟨201, some ev⟩, { app with events := app.events ++ [ev] }) ∧
        ev._id = newId ∧ ev.messagedate = .time t) ∧
    ∃ task : ScheduledTask,
      scheduleEventEmail now event c = (.ok (), ⟨c.tasks ++ [task]⟩) ∧
      task.rule.dayOfMonth = .exact (DateFromTime t) ∧
      task.rule.month = .exact (MonthFromTime t + 1) ∧
      task.timezone = "Asia/Kathmandu" ∧
      (504901800000 ≤ t →
        kathmanduOffsetAt t = 20700000 ∧
        utcOffset task.timezone = some (kathmanduOffsetAt t) ∧
        (18 * msPerHour + 15 * msPerMinute ≤ TimeWithinDay t →
          Day (t + kathmanduOffsetAt t) = Day t + 1 ∧
          Day (t + kathmanduOffsetAt t - msPerDay) = Day t ∧
          DateFromTime t = DateFromTime (t + kathmanduOffsetAt t - msPerDay) ∧
          MonthFromTime t = MonthFromTime (t + kathmanduOffsetAt t - msPerDay) ∧
          DateFromTime t ≠ DateFromTime (t + kathmanduOffsetAt t)) ∧
        (TimeWithinDay t < 18 * msPerHour + 15 * msPerMinute →
          Day (t + kathmanduOffsetAt t) = Day t ∧
          DateFromTime (t + kathmanduOffsetAt t) = DateFromTime t ∧
          MonthFromTime (t + kathmanduOffsetAt t) = MonthFromTime t)) ∧
      (-1577943676000 ≤ t → t < 504901800000 →
        kathmanduOffsetAt t = 19800000 ∧
        (18 * msPerHour + 30 * msPerMinute ≤ TimeWithinDay t →
          Day (t + kathmanduOffsetAt t) = Day t + 1 ∧
          Day (t + kathmanduOffsetAt t - msPerDay) = Day t ∧
          DateFromTime t = DateFromTime (t + kathmanduOffsetAt t - msPerDay) ∧
          MonthFromTime t = MonthFromTime (t + kathmanduOffsetAt t - msPerDay) ∧
          DateFromTime t ≠ DateFromTime (t + kathmanduOffsetAt t)) ∧
        (TimeWithinDay t < 18 * msPerHour + 30 * msPerMinute →
          Day (t + kathmanduOffsetAt t) = Day t ∧
          DateFromTime (t + kathmanduOffsetAt t) = DateFromTime t ∧
          MonthFromTime (t + kathmanduOffsetAt t) = MonthFromTime t)) := by
  refine ⟨createEvent_keeps_instant now t, createEvent_stores_instant now t, _,
    scheduleEventEmail_time now t event c h, rfl, rfl, rfl, ?_, ?_⟩
  · intro hera
    have hoff : kathmanduOffsetAt t = 20700000 := by
      unfold kathmanduOffsetAt
      rw [if_pos hera]
    rw [hoff]
    refine ⟨rfl, (by decide : utcOffset "Asia/Kathmandu" = some 20700000), ?_, ?_⟩
    · intro hlate
      have h1 : Day (t + 20700000) = Day t + 1 := by
        simp only [Day, TimeWithinDay, msPerDay, msPerHour, msPerMinute] at *
        omega
      have h2 : Day (t + 20700000 - msPerDay) = Day t := by
        simp only [Day, TimeWithinDay, msPerDay, msPerHour, msPerMinute] at *
        omega
      exact ⟨h1, h2, (DateFromTime_congr _ _ h2).symm, (MonthFromTime_congr _ _ h2).symm,
        (DateFromTime_next_day_ne t (t + 20700000) h1).symm⟩
    · intro hearly
      have h1 : Day (t + 20700000) = Day t := by
        simp only [Day, TimeWithinDay, msPerDay, msPerHour, msPerMinute] at *
        omega
      exact ⟨h1, DateFromTime_congr _ _ h1, MonthFromTime_congr _ _ h1⟩
  · intro hlo hhi
    have hoff : kathmanduOffsetAt t = 19800000 := by
      unfold kathmanduOffsetAt
      rw [if_neg (by omega), if_pos hlo]
    rw [hoff]
    refine ⟨rfl, ?_, ?_⟩
    · intro hlate
      have h1 : Day (t + 19800000) = Day t + 1 := by
        simp only [Day, TimeWithinDay, msPerDay, msPerHour, msPerMinute] at *
        omega
      have h2 : Day (t + 19800000 - msPerDay) = Day t := by
        simp only [Day, TimeWithinDay, msPerDay, msPerHour, msPerMinute] at *
        omega
      exact ⟨h1, h2, (DateFromTime_congr _ _ h2).symm, (MonthFromTime_congr _ _ h2).symm,
        (DateFromTime_next_day_ne t (t + 19800000) h1).symm⟩
    · intro hearly
      have h1 : Day (t + 19800000) = Day t := by
        simp only [Day, TimeWithinDay, msPerDay, msPerHour, msPerMinute] at *
        omega
      exact ⟨h1, DateFromTime_congr _ _ h1, MonthFromTime_congr _ _ h1⟩

theorem scheduleEventEmail_rule_uses_utc_date_witness :
    ∃ task : ScheduledTask,
      scheduleEventEmail 0 (sampleEvent 1 (.time 1719858600000) false .undefined) ⟨[]⟩ =
        (.ok (), ⟨[] ++ [task]⟩) ∧
      task.rule.dayOfMonth = .exact 1 ∧
      DateFromTime (1719858600000 + kathmanduOffsetAt 1719858600000) = 2 ∧
      DateFromTime 1719858600000 ≠
        DateFromTime (1719858600000 + kathmanduOffsetAt 1719858600000) := by
  obtain ⟨_, _, task, h1, h2, _, _, h5, _⟩ := scheduleEventEmail_rule_uses_utc_date 0
    1719858600000 (sampleEvent 1 (.time 1719858600000) false .undefined) ⟨[]⟩ rfl
  exact ⟨task, h1, h2.trans (by decide), by decide, (h5 (by decide)).2.2.1 (by decide) |>.2.2.2.2⟩

/-- C12: the page size of `scheduleEvent` and `pastEvent` is the parsed
`limit`, or 3 when `limit` is absent, has no leading number, or is 0. For a
page size `p ≥ 1` and a query result `L` of at most `p + 1` events, both
handlers answer with the first `min(|L|, p)` events of `L` in their order,
never more than `p`; `nextCursor` is `null` exactly when `|L| ≤ p`, and
otherwise it is the `_id` of the last event returned, the `p`-th of `L`. -/
theorem pagination_page_and_cursor (limit : Option String) (find : Int → List Event)
    (hp : 1 ≤ perPageOf limit)
    (hL : ((find (perPageOf limit + 1)).length : Int) ≤ perPageOf limit + 1) :
    ((parseInt limit = .nan ∨ parseInt limit = .num 0) → perPageOf limit = 3) ∧
    (∀ v : Int, parseInt limit = .num v → v ≠ 0 → perPageOf limit = v) ∧
    (parseInt none = .nan ∧ parseInt (some "abc") = .nan ∧ parseInt (some "0") = .num 0 ∧
      parseInt (some "10") = .num 10) ∧
    ∃ r : PageResponse,
      scheduleEvent limit find = .ok r ∧ pastEvent limit find = .ok r ∧
      r.success = true ∧
      r.events = (find (perPageOf limit + 1)).take (perPageOf limit).toNat ∧
      r.events.length = min (find (perPageOf limit + 1)).length (perPageOf limit).toNat ∧
      (r.events.length : Int) ≤ perPageOf limit ∧
      (r.nextCursor = none ↔ ((find (perPageOf limit + 1)).length : Int) ≤ perPageOf limit) ∧
      (perPageOf limit < ((find (perPageOf limit + 1)).length : Int) →
        ∃ last : Event,
          (find (perPageOf limit + 1))[(perPageOf limit).toNat - 1]? = some last ∧
          r.events.getLast? = some last ∧
          r.nextCursor = some last._id) := by
  refine ⟨?_, ?_, ⟨rfl, by decide, by decide, by decide⟩, ?_⟩
  · intro h
    unfold perPageOf
    rcases h with h | h <;> rw [h]
    rfl
  · intro v hv hne
    unfold perPageOf
    rw [hv]
    simp only [hne, if_false]
  · have heq := scheduleEvent_eq limit find hp hL
    refine ⟨_, heq, (pastEvent_eq_scheduleEvent limit find).trans heq, rfl, rfl, ?_, ?_, ?_, ?_⟩
    · simp only [List.length_take, Nat.min_comm]
    · simp only [List.length_take]
      omega
    · by_cases hnext : perPageOf limit < ((find (perPageOf limit + 1)).length : Int)
      · have hlt : (perPageOf limit).toNat - 1 < (find (perPageOf limit + 1)).length := by omega
        simp only [hnext, if_true, List.getElem?_eq_getElem hlt, Option.map_some']
        constructor
        · intro h
          cases h
        · intro h
          omega
      · simp only [hnext, if_false, true_iff]
        omega
    · intro hnext
      have hlt : (perPageOf limit).toNat - 1 < (find (perPageOf limit + 1)).length := by omega
      refine ⟨(find (perPageOf limit + 1))[(perPageOf limit).toNat - 1],
        List.getElem?_eq_getElem hlt, ?_, ?_⟩
      · rw [List.getLast?_eq_getElem?, List.length_take, Nat.min_eq_left (by omega),
          List.getElem?_take_of_lt (by omega), List.getElem?_eq_getElem hlt]
      · simp only [hnext, if_true, List.getElem?_eq_getElem hlt, Option.map_some']

theorem pagination_page_and_cursor_witness :
    ∃ r : PageResponse,
      scheduleEvent (some "2")
          (fun _ => [sampleEventOn 1 1722535200000, sampleEventOn 2 1722535200000,
            sampleEventOn 3 1722535200000]) = .ok r ∧
      r.events = [sampleEventOn 1 1722535200000, sampleEventOn 2 1722535200000] ∧
      r.nextCursor = some 2 := by
  obtain ⟨_, _, _, r, h1, _, _, h4, _, _, _, h8⟩ := pagination_page_and_cursor (some "2")
    (fun _ => [sampleEventOn 1 1722535200000, sampleEventOn 2 1722535200000,
      sampleEventOn 3 1722535200000]) (by decide) (by decide)
  obtain ⟨last, h9, _, h11⟩ := h8 (by decide)
  have hl : last = sampleEventOn 2 1722535200000 := by
    have h12 : (some (sampleEventOn 2 1722535200000) : Option Event) = some last := h9
    exact (Option.some.inj h12).symm
  exact ⟨r, h1, h4, by rw [h11, hl]; rfl⟩

/-- C13: for every list of fetched events whose `eventdate` is a `Date`,
`getEventsByMonth` (with both parameters given) answers with this grouping:
one entry per distinct UTC calendar date, keyed by its `YYYY-MM-DD`
text, two events sharing an entry exactly when they fall on the same UTC day;
the entries come in the order in which their dates first occur; each entry
holds exactly the events of its date, in their original order, so every event
is in the entry of its own date and in no other; and the event counts of the
entries add up to the number of fetched events. For the empty list the answer
is the object with the empty `events` array. -/
theorem getEventsByMonth_partition (year month : Option String) (fetched : List Event)
    (hy : truthy year = true) (hm : truthy month = true)
    (hd : ∀ e ∈ fetched, ∃ t, e.eventdate = .time t ∧ TimeClip t = some t) :
    (fetched = [] → getEventsByMonth year month fetched = .noEvents) ∧
    (fetched ≠ [] →
      getEventsByMonth year month fetched = .grouped (groupedByDateSpec fetched)) ∧
    ((groupedByDateSpec fetched).map Prod.fst).Nodup ∧
    (∀ k, k ∈ (groupedByDateSpec fetched).map Prod.fst ↔ ∃ e ∈ fetched, e.isoDate = k) ∧
    ((groupedByDateSpec fetched).map Prod.fst).Pairwise
      (fun a b => (fetched.map Event.isoDate).indexOf a < (fetched.map Event.isoDate).indexOf b) ∧
    (∀ p ∈ groupedByDateSpec fetched,
      p.2 = fetched.filter (fun e => decide (e.isoDate = p.1)) ∧ p.2 ≠ []) ∧
    (∀ e ∈ fetched, ∀ p ∈ groupedByDateSpec fetched, e ∈ p.2 ↔ p.1 = e.isoDate) ∧
    ((groupedByDateSpec fetched).map (fun p => p.2.length)).sum = fetched.length ∧
    (∀ a ∈ fetched, ∀ b ∈ fetched, ∀ ta tb : Int,
      a.eventdate = .time ta → b.eventdate = .time tb →
      a.isoDate = toISODate ta ∧ (a.isoDate = b.isoDate ↔ Day ta = Day tb)) := by
  have hkeys : (groupedByDateSpec fetched).map Prod.fst =
      distinctInOrder (fetched.map Event.isoDate) := by
    unfold groupedByDateSpec
    rw [List.map_map]
    exact List.map_id _
  have hrun : groupedEvents fetched [] = .ok (groupedByDateSpec fetched) := by
    have := groupedEvents_spec fetched []
      (fun e he => (hd e he).imp (fun _ h => h.1))
    rw [List.nil_append] at this
    exact this
  have hmemp : ∀ p ∈ groupedByDateSpec fetched,
      p.1 ∈ fetched.map Event.isoDate ∧
        p.2 = fetched.filter (fun e => decide (e.isoDate = p.1)) := by
    intro p hp
    unfold groupedByDateSpec at hp
    obtain ⟨k, hk, rfl⟩ := List.mem_map.mp hp
    exact ⟨(mem_distinctInOrder _ _).mp hk, rfl⟩
  refine ⟨?_, ?_, ?_, ?_, ?_, ?_, ?_, groupedByDateSpec_total fetched, ?_⟩
  · intro he
    subst he
    unfold getEventsByMonth
    rw [hy, hm]
    rfl
  · intro hne
    unfold getEventsByMonth
    rw [hy, hm, hrun]
    have hlen : (groupedByDateSpec fetched).length ≠ 0 := by
      cases fetched with
      | nil => exact absurd rfl hne
      | cons e es =>
        unfold groupedByDateSpec
        simp [distinctInOrder]
    simp only [Bool.and_self, if_true, hlen, if_false]
  · rw [hkeys]
    exact nodup_distinctInOrder _
  · intro k
    rw [hkeys, mem_distinctInOrder, List.mem_map]
  · rw [hkeys]
    exact distinctInOrder_pairwise _
  · intro p hp
    obtain ⟨h1, h2⟩ := hmemp p hp
    refine ⟨h2, ?_⟩
    obtain ⟨e, he, hek⟩ := List.mem_map.mp h1
    intro hnil
    have hin : e ∈ fetched.filter (fun e => decide (e.isoDate = p.1)) :=
      List.mem_filter.mpr ⟨he, by simpa using hek⟩
    rw [← h2, hnil] at hin
    cases hin
  · intro e he p hp
    obtain ⟨_, h2⟩ := hmemp p hp
    rw [h2, List.mem_filter]
    simp only [decide_eq_true_eq]
    constructor
    · intro h
      exact h.2.symm
    · intro h
      exact ⟨he, h.symm⟩
  · intro a ha b hb ta tb hta htb
    obtain ⟨ta2, hta2, hca⟩ := hd a ha
    obtain ⟨tb2, htb2, hcb⟩ := hd b hb
    rw [hta] at hta2
    rw [htb] at htb2
    cases hta2
    cases htb2
    have hia : a.isoDate = toISODate ta := by
      unfold Event.isoDate
      rw [hta]
    have hib : b.isoDate = toISODate tb := by
      unfold Event.isoDate
      rw [htb]
    refine ⟨hia, ?_⟩
    rw [hia, hib]
    exact toISODate_eq_iff ta tb hca hcb

theorem getEventsByMonth_partition_witness :
    getEventsByMonth (some "2024") (some "8")
        [sampleEventOn 1 1722535200000, sampleEventOn 2 1722589200000,
          sampleEventOn 3 1722481200000] =
      .grouped
        [("2024-08-01", [sampleEventOn 1 1722535200000, sampleEventOn 3 1722481200000]),
          ("2024-08-02", [sampleEventOn 2 1722589200000])] :=
  ((getEventsByMonth_partition (some "2024") (some "8")
    [sampleEventOn 1 1722535200000, sampleEventOn 2 1722589200000,
      sampleEventOn 3 1722481200000] (by decide) (by decide)
    (by
      intro e he
      simp only [List.mem_cons, List.mem_singleton, List.not_mem_nil, or_false] at he
      rcases he with rfl | rfl | rfl
      · exact ⟨1722535200000, rfl, by decide⟩
      · exact ⟨1722589200000, rfl, by decide⟩
      · exact ⟨1722481200000, rfl, by decide⟩)).2.1
      (by decide)).trans (congrArg MonthResponse.grouped (by decide))
